import Mathlib

/-!
Verification of the QuickStuff data-cleaning scripts.

This file gives a shallow embedding, in Lean 4, of the text-normalization,
fuzzy-matching and phone-classification code of the repository
(`src/add_NAISC.py`, `src/phone_cleaner.py`) and proves or refutes the
frozen behavioural claims about it.

Conventions:
* Python strings are modelled as `String` / `List Char`; all definitions are
  executable.
* Python regular expressions appearing in the source are fixed patterns; each
  is embedded as a hand-rolled recognizer that follows the backtracking
  behaviour of `re` on that concrete pattern.
* Third-party library calls (`unicodedata`, `autocorrect`, `thefuzz`,
  `phonenumbers`) are modelled explicitly; each model carries a doc comment
  stating what is modelled and which simplifications were made.
-/

namespace QuickStuff

/-- `dropWhile` never lengthens a list (termination helper). -/
theorem dropWhile_len_le {α : Type} (p : α → Bool) (l : List α) :
    (l.dropWhile p).length ≤ l.length := by
  induction l with
  | nil => simp [List.dropWhile]
  | cons a as ih =>
    simp only [List.dropWhile]
    split
    · exact Nat.le_succ_of_le ih
    · simp

/-! ## Character-class helpers (Python `re` classes, ASCII fragment) -/

/-- Python regex `\s` (ASCII whitespace: space, tab, newline, carriage
return, vertical tab, form feed). -/
def isWs (c : Char) : Bool :=
  c = ' ' || c = '\t' || c = '\n' || c = '\r' || c = '\x0b' || c = '\x0c'

/-- Python regex `\w` (ASCII fragment): letters, digits and underscore. -/
def isWordC (c : Char) : Bool :=
  c.isAlphanum || c = '_'

/-- Strip `isWs` characters from both ends (Python `str.strip()`). -/
def trimWs (l : List Char) : List Char :=
  ((l.dropWhile isWs).reverse.dropWhile isWs).reverse

/-- Python `str.strip()` on a `String`. -/
def trimS (s : String) : String :=
  String.mk (trimWs s.toList)

/-- Lowercase every character (Python `str.lower()`, ASCII). -/
def toLowerL (l : List Char) : List Char :=
  l.map Char.toLower

/-! ## `clean_text` (src/add_NAISC.py lines 141-189)

The normalizer is a fixed pipeline of regex substitutions.  Each numbered
step of the Python function becomes one definition below. -/

/-- Model of `unicodedata.normalize("NFKD", ·)` followed by
`.encode("ascii", errors="ignore").decode()` (step 1 of `clean_text`):
ASCII characters are NFKD-invariant and kept; a small table of common
Latin-1 accented letters decomposes to its base letter; all remaining
non-ASCII characters are dropped (their combining marks are not
ASCII-representable).  The decomposition table is abbreviated to the
accented letters that occur in the data; every claim below is about ASCII
input, where this model is exact. -/
def asciiFoldC (c : Char) : List Char :=
  if c.toNat < 128 then [c]
  else if c = 'é' || c = 'è' || c = 'ê' || c = 'ë' then ['e']
  else if c = 'à' || c = 'â' || c = 'ä' then ['a']
  else if c = 'î' || c = 'ï' then ['i']
  else if c = 'ô' || c = 'ö' then ['o']
  else if c = 'û' || c = 'ü' || c = 'ù' then ['u']
  else if c = 'ç' then ['c']
  else []

/-- Step 1 applied to a whole string. -/
def asciiFoldL (l : List Char) : List Char :=
  l.flatMap asciiFoldC

/-- Step 2: `txt.replace("\r", " ").replace("\n", " ")`. -/
def killBreaks (l : List Char) : List Char :=
  l.map (fun c => if c = '\r' || c = '\n' then ' ' else c)

/-- Does the list start with optional whitespace followed by a digit?
(Used by the comment-stripping regex: `\s*\d` after the `[#/]`.) -/
def wsThenDigit (l : List Char) : Bool :=
  match l.dropWhile isWs with
  | c :: _ => c.isDigit
  | [] => false

/-- Step 3: `re.sub(r"[#/]\s*\d{1,6}.*", " ", txt)`.  The `.*` swallows the
rest of the string (line breaks were removed in step 2), so the leftmost
`#`/`/` that is followed by optional whitespace and a digit, together with
everything after it, is replaced by a single space. -/
def commentCut : List Char → List Char
  | [] => []
  | c :: rest =>
    if (c = '#' || c = '/') && wsThenDigit rest then [' ']
    else c :: commentCut rest

/-- Step 4, first substitution:
`re.sub(r"^[\s\-]*(\d{3,6})(?=\D|$)", " ", txt)`.
The lookahead forces the greedy `\d{3,6}` to cover the whole leading digit
run, so the anchor matches exactly when the first non-`[\s-]` characters
form a digit run of length 3 to 6. -/
def leadCodeStrip (l : List Char) : List Char :=
  let rest := l.dropWhile (fun c => isWs c || c = '-')
  let ds := rest.takeWhile Char.isDigit
  if 3 ≤ ds.length && ds.length ≤ 6 then ' ' :: rest.drop ds.length else l

/-- Step 4, second substitution, run flush: a pending maximal digit run
`run` whose left word-boundary status is `startOk` and whose right
word-boundary status is `afterOk` is replaced by a single space exactly
when both boundaries hold and its length is 3 to 6 (`\b\d{3,6}\b`). -/
def saFlush (startOk : Bool) (run : List Char) (afterOk : Bool) : List Char :=
  if startOk && decide (3 ≤ run.length) && decide (run.length ≤ 6) && afterOk
  then [' '] else run

/-- Step 4, second substitution, scanner.  `startOk` is the left-boundary
status of the pending (or next) digit run; `run` accumulates the pending
maximal digit run. -/
def saGo (startOk : Bool) (run : List Char) : List Char → List Char
  | [] => saFlush startOk run true
  | c :: rest =>
    if c.isDigit then saGo startOk (run ++ [c]) rest
    else if run.isEmpty then c :: saGo (!isWordC c) [] rest
    else saFlush startOk run (!isWordC c) ++ c :: saGo (!isWordC c) [] rest

/-- Step 4, second substitution: `re.sub(r"\b\d{3,6}\b", " ", txt)`.
A maximal digit run of length 3 to 6 delimited by word boundaries is
replaced by a space; runs of other lengths, and runs glued to letters or
underscores, survive (`\b` never holds inside a `\w` run).  At the start
of the string the left boundary holds. -/
def standaloneCodes (l : List Char) : List Char :=
  saGo true [] l

/-- Step 5a: `re.sub(r"[,:;()\[\]]", " ", txt)`. -/
def killPunct (l : List Char) : List Char :=
  l.map (fun c =>
    if c = ',' || c = ':' || c = ';' || c = '(' || c = ')' || c = '[' || c = ']'
    then ' ' else c)

/-- Is the character a `.` or `/` (the class of step 5b)? -/
def isDS (c : Char) : Bool := c = '.' || c = '/'

/-- Step 5b flush: a pending run of `n` `.`/`/` characters whose first
character is `f` emits `/` when the run has length at least 2, the
character itself when it is a lone `.` or `/`, nothing when `n = 0`. -/
def dsFlush (n : Nat) (f : Char) : List Char :=
  if n = 0 then [] else if n = 1 then [f] else ['/']

/-- Step 5b scanner: `n`/`f` describe the pending `[./]` run. -/
def sdGo (n : Nat) (f : Char) : List Char → List Char
  | [] => dsFlush n f
  | c :: rest =>
    if isDS c then sdGo (n + 1) (if n = 0 then c else f) rest
    else dsFlush n f ++ c :: sdGo 0 ' ' rest

/-- Step 5b: `re.sub(r"[./]{2,}", "/", txt)` — a run of two or more `.`/`/`
characters collapses to a single `/`; a lone `.` or `/` is kept. -/
def squashDS (l : List Char) : List Char :=
  sdGo 0 ' ' l

/-- Step 5c scanner: `pend` records whether a `-` run is pending (any
pending run emits a single `-`, since `-{2,}` collapses to `-` and a lone
`-` is kept as itself). -/
def dashGo (pend : Bool) : List Char → List Char
  | [] => if pend then ['-'] else []
  | c :: rest =>
    if c = '-' then dashGo true rest
    else (if pend then ['-'] else []) ++ c :: dashGo false rest

/-- Step 5c: `re.sub(r"[-]{2,}", "-", txt)`. -/
def squashDash (l : List Char) : List Char :=
  dashGo false l

/-- The `SUBSTITUTIONS` table of src/add_NAISC.py lines 127-135, in
insertion order (each key is compiled to `\b<key>\b`, case-insensitive). -/
def SUBSTITUTIONS : List (List Char × List Char) :=
  [("agirculture".toList, "agriculture".toList),
   ("abbatoirs".toList, "abattoirs".toList),
   ("per wcb".toList, [] ),
   ("ne, nec".toList, [] )]

/-- Case-insensitive comparison of a text fragment against a (lowercase)
pattern literal. -/
def ciPrefixEq : List Char → List Char → Bool
  | [], _ => true
  | _ :: _, [] => false
  | p :: ps, t :: ts => (t.toLower = p) && ciPrefixEq ps ts

/-- Word-boundary test: `\b` holds between two characters exactly when
their `\w`-ness differs (a missing character counts as non-word). -/
def boundaryOk (prev : Option Char) (c : Char) : Bool :=
  (match prev with | some p => isWordC p | none => false) != isWordC c

/-- Worker for one pattern of step 6, with explicit fuel (every step
consumes at least one character, so fuel `l.length` is enough; the `0`
case is unreachable from `replaceWord`). -/
def rwGo (k0 : Char) (ks repl : List Char) :
    Nat → Option Char → List Char → List Char
  | 0, _, l => l
  | _ + 1, _, [] => []
  | fuel + 1, prev, c :: rest =>
    let kn := ks.getLast?.getD k0
    let matched :=
      ciPrefixEq (k0 :: ks) (c :: rest) &&
      boundaryOk prev k0 &&
      (match rest.drop ks.length with
       | [] => isWordC kn
       | d :: _ => isWordC kn != isWordC d)
    if matched then
      repl ++ rwGo k0 ks repl fuel ((c :: rest).get? ks.length)
                (rest.drop ks.length)
    else
      c :: rwGo k0 ks repl fuel (some c) rest

/-- One pattern of step 6: `pat.sub(repl, txt)` for `\b<k0><ks>\b` compiled
with `re.I` (the pattern literal is non-empty, split as head `k0` and tail
`ks`).  Scans left to right; at a match, emits the replacement and resumes
after the matched text.  Boundaries are evaluated on the original text;
case-insensitive matching makes the `\w`-status of the pattern's edge
characters equal that of the matched text characters. -/
def replaceWord (k0 : Char) (ks repl : List Char)
    (prev : Option Char) (l : List Char) : List Char :=
  rwGo k0 ks repl l.length prev l

/-- Step 6: apply every `SUB_PATTERNS` substitution in table order. -/
def substAll (l : List Char) : List Char :=
  SUBSTITUTIONS.foldl
    (fun acc kv =>
      match kv.1 with
      | [] => acc
      | k0 :: ks => replaceWord k0 ks kv.2 none acc) l

/-- Step 7a scanner: `prevWs` records whether the previous character was
whitespace (in which case further whitespace is absorbed). -/
def cwGo (prevWs : Bool) : List Char → List Char
  | [] => []
  | c :: rest =>
    if isWs c then (if prevWs then [] else [' ']) ++ cwGo true rest
    else c :: cwGo false rest

/-- Step 7a: `re.sub(r"\s+", " ", txt)` — collapse whitespace runs to a
single space. -/
def collapseWs (l : List Char) : List Char :=
  cwGo false l

/-- Step 8, model of `autocorrect.Speller(lang="en")`:
the library replaces each word by its most frequent dictionary correction
and leaves correctly-spelled words (and non-word characters) unchanged.
Its frequency dictionary is external data; the pass is modelled as the
identity, which agrees with the library on every string appearing in the
theorems below (all their words are correctly spelled or non-alphabetic). -/
def spellPass (l : List Char) : List Char := l

/-- Step 9 worker: Python `str.title()` — a cased character that follows a
non-cased character is uppercased, all other cased characters are
lowercased (ASCII fragment: cased = letter). -/
def titleGo (prevAlpha : Bool) : List Char → List Char
  | [] => []
  | c :: rest =>
    (if c.isAlpha && !prevAlpha then c.toUpper else c.toLower) ::
      titleGo c.isAlpha rest

/-- Step 9: `txt.title()`. -/
def titleCaseL (l : List Char) : List Char :=
  titleGo false l

/-- `txt.strip(".- ")` of step 10. -/
def isDotDashSpace (c : Char) : Bool :=
  c = '.' || c = '-' || c = ' '

/-- Strip `.`, `-` and spaces from both ends (Python `str.strip(".- ")`). -/
def stripDMl (l : List Char) : List Char :=
  ((l.dropWhile isDotDashSpace).reverse.dropWhile isDotDashSpace).reverse

/-- Steps 1-9 of `clean_text` in source order: Unicode fold (1), line
breaks (2), comment cut (3), leading and standalone codes (4), punctuation
and `./`/`-` collapsing (5), substitution table (6), whitespace collapse,
strip and lowercase (7), spelling pass (8), title case (9). -/
def cleanCore (s : String) : List Char :=
  titleCaseL (spellPass (toLowerL (trimWs (collapseWs (substAll
    (squashDash (squashDS (killPunct (standaloneCodes (leadCodeStrip
    (commentCut (killBreaks (asciiFoldL s.toList)))))))))))))

/-- `clean_text` body on an actual string (src/add_NAISC.py lines 141-189):
the guard for blank input, then steps 1-10 in source order.  Note step 10
returns the *unstripped* `txt` when `txt.strip(".- ")` is non-empty. -/
def clean_text_str (s : String) : String :=
  if trimS s = "" then ""
  else if stripDMl (cleanCore s) = [] then "" else String.mk (cleanCore s)

/-- A cell value fed to `clean_text`: either a missing value (`None`/NaN,
detected by `pd.isna`) or an actual string. -/
inductive CellVal where
  | na : CellVal
  | str : String → CellVal
deriving DecidableEq, Repr

/-- `clean_text(raw)` (src/add_NAISC.py lines 141-189) including the
`pd.isna(raw) or not str(raw).strip()` guard. -/
def clean_text : CellVal → String
  | .na => ""
  | .str s => clean_text_str s

/-! ## Token-set similarity (`thefuzz.fuzz.token_set_ratio`)

src/add_NAISC.py calls `process.extractOne(..., scorer=fuzz.token_set_ratio,
score_cutoff=cutoff)` from `thefuzz` (backed by `rapidfuzz`).  The scorer is
third-party code and is modelled here following its published algorithm:
full-process both strings, split into token *sets*, and return the maximum
of the three pairwise Indel similarities between `sorted(intersection)`,
`sorted(intersection)+sorted(diff1)` and `sorted(intersection)+sorted(diff2)`,
each joined by single spaces, scaled to 0-100 and rounded. -/

/-- Code-point lexicographic comparison (Python `str` comparison, used by
`sorted`). -/
def lexLe : List Char → List Char → Bool
  | [], _ => true
  | _ :: _, [] => false
  | a :: as, b :: bs => if a = b then lexLe as bs else decide (a.toNat < b.toNat)

/-- `thefuzz.utils.full_process` with `force_ascii=True`: drop non-ASCII
characters, replace non-alphanumeric characters by spaces, lowercase, and
strip.  (ASCII alphanumeric; the underscore is treated as non-alphanumeric
by `rapidfuzz.utils.default_process`.) -/
def fullProcessL (l : List Char) : List Char :=
  trimWs ((l.filter (fun c => c.toNat < 128)).map
    (fun c => if c.isAlphanum then c.toLower else ' '))

/-- `str.split()`: maximal whitespace-separated words. -/
def wordsGo (cur : List Char) : List Char → List (List Char)
  | [] => if cur.isEmpty then [] else [cur.reverse]
  | c :: rest =>
    if isWs c then
      (if cur.isEmpty then [] else [cur.reverse]) ++ wordsGo [] rest
    else wordsGo (c :: cur) rest

/-- `str.split()` on a character list. -/
def wordsOf (l : List Char) : List (List Char) :=
  wordsGo [] l

/-- Longest-common-subsequence length, dynamic-programming row step. -/
def lcsRowGo (x : Char) : List (Char × Nat) → Nat → Nat → List Nat
  | [], _, _ => []
  | (y, pj1) :: rest, diag, left =>
    let v := if x = y then diag + 1 else max left pj1
    v :: lcsRowGo x rest pj1 v

/-- Longest-common-subsequence length of two character lists (row-by-row
dynamic programming, so that concrete instances evaluate quickly). -/
def lcsLen (a b : List Char) : Nat :=
  let row0 : List Nat := List.replicate (b.length + 1) 0
  let last := a.foldl
    (fun prev x =>
      match prev with
      | [] => []
      | p0 :: ptail => 0 :: lcsRowGo x (b.zip ptail) p0 0)
    row0
  last.getLastD 0

/-- Round-half-to-even of the rational `n / d` (Python `round`, used by
`thefuzz`'s `int(round(100 * similarity))` wrapper). -/
def roundHalfEven (n d : Nat) : Nat :=
  let q := n / d
  let r := n % d
  if 2 * r < d then q
  else if d < 2 * r then q + 1
  else if q % 2 = 0 then q else q + 1

/-- Indel similarity scaled to 0-100 (`rapidfuzz`'s `ratio`, i.e.
`100 * 2*lcs/(|a|+|b|)`, and 100 for two empty strings). -/
def indelSim (a b : List Char) : Nat :=
  let n := a.length + b.length
  if n = 0 then 100 else roundHalfEven (200 * lcsLen a b) n

/-- Join token lists with single spaces. -/
def joinSp (ts : List (List Char)) : List Char :=
  match ts with
  | [] => []
  | t :: rest => t ++ (rest.flatMap (fun u => ' ' :: u))

/-- Sort tokens in code-point order (Python `sorted`). -/
def sortToks (ts : List (List Char)) : List (List Char) :=
  List.insertionSort (fun a b => lexLe a b = true) ts

/-- `fuzz.token_set_ratio(s1, s2)` (model of the third-party scorer; see
the section comment).  Both strings are full-processed; empty processed
token sets score 0; equal token sets (or one contained in the other with a
non-empty intersection) score 100. -/
def tokenSetScore (s1 s2 : String) : Nat :=
  let ta := (wordsOf (fullProcessL s1.toList)).eraseDups
  let tb := (wordsOf (fullProcessL s2.toList)).eraseDups
  if ta.isEmpty || tb.isEmpty then 0
  else
    let inter := ta.filter (fun t => tb.contains t)
    let dab := ta.filter (fun t => !tb.contains t)
    let dba := tb.filter (fun t => !ta.contains t)
    if !inter.isEmpty && (dab.isEmpty || dba.isEmpty) then 100
    else
      let sect := joinSp (sortToks inter)
      let c1 := joinSp (sortToks inter ++ sortToks dab)
      let c2 := joinSp (sortToks inter ++ sortToks dba)
      max (max (indelSim sect c1) (indelSim sect c2)) (indelSim c1 c2)

/-! ## `fuzzy_naics` (src/add_NAISC.py lines 191-218) -/

/-- `thefuzz.process.extractOne(query, choices, scorer=fuzz.token_set_ratio,
score_cutoff=cutoff)` (model of the third-party matcher): score every
choice, keep the first choice attaining the maximum score, and return it
with its score when the score is at least the cutoff, `None` otherwise. -/
def extractOne (query : String) (choices : List String) (cutoff : Nat) :
    Option (String × Nat) :=
  choices.foldl
    (fun best c =>
      let sc := tokenSetScore query c
      match best with
      | none => if cutoff ≤ sc then some (c, sc) else none
      | some b => if b.2 < sc then some (c, sc) else some b)
    none

/-- The best token-set similarity score a query attains over a reference
list (the quantity claim C2 speaks about). -/
def bestScore (q : String) (choices : List String) : Nat :=
  choices.foldl (fun m c => max m (tokenSetScore q c)) 0

/-- `fuzzy_naics(raw_text, choices, code_lookup, cutoff)`
(src/add_NAISC.py lines 191-218).  Returns
`(naics_code, naics_title, score)`; the null triad is `(none, none, 0)`.
The `not isinstance(raw_text, str)` arm of the guard is covered by the
typed embedding; `not raw_text.strip()` is the `trimS` test.  The
function is total: it never raises. -/
def fuzzy_naics (raw_text : String) (choices : List String)
    (code_lookup : List (String × String)) (cutoff : Nat) :
    Option String × Option String × Nat :=
  if trimS raw_text = "" then (none, none, 0)
  else
    match extractOne raw_text choices cutoff with
    | none => (none, none, 0)
    | some (choice, score) => (code_lookup.lookup choice, some choice, score)

/-! ## Row-processing loop (src/add_NAISC.py lines 262-300) -/

/-- `first_non_blank(row, *cols)` (src/add_NAISC.py lines 262-268): the
first column value whose stripped form is non-empty, stripped; `""` when
none is. -/
def first_non_blank : List String → String
  | [] => ""
  | c :: rest => if trimS c = "" then first_non_blank rest else trimS c

/-- One iteration of the row loop (src/add_NAISC.py lines 270-300),
producing the `codes`/`titles` pair for the row.  `titleByCode` is the
module-level `TITLE_BY_CODE` table, `choices`/`codeLookup` the fuzzy
reference index, `existingRaw` the row's `NAICS_Code` cell and `srcCols`
the candidate source-text cells in priority order. -/
def processRow (titleByCode : List (String × String))
    (choices : List String) (codeLookup : List (String × String))
    (cutoff : Nat) (existingRaw : String) (srcCols : List String) :
    List String × List String :=
  let existing := trimS existingRaw
  if existing ≠ "" then
    ([existing], [(titleByCode.lookup existing).getD ""])
  else
    let rawSrc := first_non_blank srcCols
    if rawSrc = "" then ([], [])
    else
      match fuzzy_naics (clean_text_str rawSrc) choices codeLookup cutoff with
      | (some code, some title, _) =>
        if code ≠ "" then ([code], [title]) else ([], [])
      | _ => ([], [])

/-! ## `split_chain` (src/add_NAISC.py lines 95-113) -/

/-- The result of `split_chain`: one slot per fixed hierarchy level. -/
structure Chain where
  sector : String
  subsector : String
  industryGroup : String
  industry : String
  canadianIndustry : String
  classDesc : String
deriving DecidableEq, Repr

/-- The all-empty chain returned for non-digit input. -/
def emptyChain : Chain := ⟨"", "", "", "", "", ""⟩

/-- Python `str.zfill(6)`: left-pad with zeros to length 6. -/
def zfill6 (s : String) : String :=
  if s.length < 6 then String.mk (List.replicate (6 - s.length) '0') ++ s else s

/-- Python `str.ljust(6, "0")`: right-pad with zeros to length 6. -/
def ljust6 (s : String) : String :=
  if s.length < 6 then s ++ String.mk (List.replicate (6 - s.length) '0') else s

/-- Python `s[:k]` on a string. -/
def strTake (s : String) (k : Nat) : String :=
  String.mk (s.toList.take k)

/-- Python `str.isdigit()` (ASCII fragment: non-empty and all digits). -/
def pyIsDigit (s : String) : Bool :=
  !s.toList.isEmpty && s.toList.all Char.isDigit

/-- `split_chain(code6)` (src/add_NAISC.py lines 95-113), parametrised by
the module-level `TITLE_BY_CODE` table.  Non-digit input gives all-empty
slots; otherwise the code is `zfill(6)`-padded and each level's title is
`TITLE_BY_CODE.get(code6[:k].ljust(6, "0"), "")`.  The typed embedding
covers the `not isinstance(code6, str)` arm; the function is total. -/
def split_chain (titleByCode : List (String × String)) (code6 : String) :
    Chain :=
  if !pyIsDigit code6 then emptyChain
  else
    let c := zfill6 code6
    { sector := (titleByCode.lookup (ljust6 (strTake c 2))).getD ""
      subsector := (titleByCode.lookup (ljust6 (strTake c 3))).getD ""
      industryGroup := (titleByCode.lookup (ljust6 (strTake c 4))).getD ""
      industry := (titleByCode.lookup (ljust6 (strTake c 5))).getD ""
      canadianIndustry := (titleByCode.lookup c).getD ""
      classDesc := (titleByCode.lookup c).getD "" }

/-- The claim's reading of hierarchy expansion (C4, verbatim from the spec
sentence): each ancestor title is obtained by truncating *the input code*
to the level's prefix width, right-padding with zeros to 6 digits, and
looking the padded prefix up; a prefix with no taxonomy node yields `""`.
No left-padding appears in this reading. -/
def chainClaim (titleByCode : List (String × String)) (code6 : String) :
    Chain :=
  if !pyIsDigit code6 then emptyChain
  else
    let slot := fun k =>
      match titleByCode.find? (fun q => q.1 = ljust6 (strTake code6 k)) with
      | some q => q.2
      | none => ""
    { sector := slot 2
      subsector := slot 3
      industryGroup := slot 4
      industry := slot 5
      canadianIndustry := slot 6
      classDesc := slot 6 }

/-- The amended reading of hierarchy expansion (C4): identical to
`chainClaim` except that the input code is first left-zero-padded to six
digits, which is what the source's `zfill(6)` safety pad does. -/
def chainAmended (titleByCode : List (String × String)) (code6 : String) :
    Chain :=
  if !pyIsDigit code6 then emptyChain
  else
    let slot := fun k =>
      match titleByCode.find? (fun q => q.1 = ljust6 (strTake (zfill6 code6) k)) with
      | some q => q.2
      | none => ""
    { sector := slot 2
      subsector := slot 3
      industryGroup := slot 4
      industry := slot 5
      canadianIndustry := slot 6
      classDesc := slot 6 }

/-! ## Phone cleaner (src/phone_cleaner.py)

Configuration constants of src/phone_cleaner.py lines 30-59, and the
pre-compiled `PHONE_RE` pattern (lines 62-69):

    (?:\+?1[\s\-\.]?\s*)?          optional country code
    (?:\(?\d{3}\)?[\s\-\.]?\s*)?   optional area code
    \d{3}[\s\-\.]?\s*\d{4}         local number

The pattern is embedded as a recognizer with the same greedy backtracking
order as `re`: the country-code group is tried first with the group
present, then absent, and likewise the area-code group. -/

/-- `TOLL_FREE_CODES` (src/phone_cleaner.py lines 33-35). -/
def TOLL_FREE_CODES : List String :=
  ["800", "888", "877", "866", "855", "844", "833", "822"]

/-- `KEYWORDS` (src/phone_cleaner.py lines 38-59), in insertion order. -/
def KEYWORDS : List (String × List String) :=
  [("cell", ["cell", "cel", "cel.", "mobile", "mob", "m", "c", "hand",
             "smartphone"]),
   ("home", ["home", "res", "res.", "res:", "house", "h", "r", "residence"]),
   ("work", ["work", "wk", "bus", "business", "w", "t"]),
   ("office", ["office", "off", "o", "main", "site", "store", "shop",
               "pro shop", "church", "restaurant", "dir", "direct", "line",
               "hq", "admin", "lab", "spa", "salon"]),
   ("fax", ["fax", "f", "fx"]),
   ("tollfree", ["toll free", "toll-free", "tollfree"])]

/-- `[\s\-\.]?\s*` — one optional separator character, then optional
whitespace.  (When the optional character is whitespace the two pieces are
interchangeable, so no backtracking is needed: either the head is `-`/`.`
and is consumed, or whitespace is skipped.) -/
def optSepWs (l : List Char) : List Char :=
  match l with
  | c :: rest => if c = '-' || c = '.' then rest.dropWhile isWs
                 else l.dropWhile isWs
  | [] => []

/-- `\d{3}`: three digits, returning the remainder. -/
def take3d : List Char → Option (List Char)
  | a :: b :: c :: rest =>
    if a.isDigit && b.isDigit && c.isDigit then some rest else none
  | _ => none

/-- `\d{4}`: four digits, returning the remainder. -/
def take4d : List Char → Option (List Char)
  | a :: b :: c :: d :: rest =>
    if a.isDigit && b.isDigit && c.isDigit && d.isDigit then some rest
    else none
  | _ => none

/-- The mandatory local part `\d{3}[\s\-\.]?\s*\d{4}`. -/
def localPart (l : List Char) : Option (List Char) :=
  match take3d l with
  | some r => take4d (optSepWs r)
  | none => none

/-- The optional country-code group `(?:\+?1[\s\-\.]?\s*)?` with the group
present: `+1` or `1`, then separator (`\+?` greedy: a leading `+` must be
followed by the literal `1`). -/
def countryTry (l : List Char) : Option (List Char) :=
  match l with
  | [] => none
  | c :: rest =>
    if c = '+' then
      match rest with
      | c2 :: r2 => if c2 = '1' then some (optSepWs r2) else none
      | [] => none
    else if c = '1' then some (optSepWs rest) else none

/-- The optional area-code group `(?:\(?\d{3}\)?[\s\-\.]?\s*)?` with the
group present.  (If a consumed `(` is not followed by three digits the
group fails with or without the paren, since `(` is not a digit, so no
backtracking into `\(?` is needed.) -/
def areaTry (l : List Char) : Option (List Char) :=
  let l1 := match l with
    | c :: r => if c = '(' then r else l
    | [] => l
  match take3d l1 with
  | some r =>
    let r1 := match r with
      | c :: t => if c = ')' then t else r
      | [] => r
    some (optSepWs r1)
  | none => none

/-- First alternative that matches (regex backtracking order). -/
def firstSome (cands : List (List Char)) (f : List Char → Option (List Char)) :
    Option (List Char) :=
  match cands with
  | [] => none
  | c :: rest =>
    match f c with
    | some r => some r
    | none => firstSome rest f

/-- `PHONE_RE` matched at the head of `l`; returns the remainder after the
match.  Alternatives are tried in the greedy order of `re`:
country-present before country-absent, area-present before area-absent. -/
def matchAt (l : List Char) : Option (List Char) :=
  let countryCands := (match countryTry l with
    | some r => [r]
    | none => []) ++ [l]
  firstSome countryCands (fun l1 =>
    let areaCands := (match areaTry l1 with
      | some r => [r]
      | none => []) ++ [l1]
    firstSome areaCands localPart)

/-- `PHONE_RE.finditer(s)`: scan left to right, emitting non-overlapping
leftmost matches as `(start, length)` pairs and resuming after each match
(the pattern cannot match the empty string, so every match advances).
`fuel` bounds the recursion by the input length. -/
def reScanGo (fuel : Nat) (pos : Nat) (l : List Char) : List (Nat × Nat) :=
  match fuel with
  | 0 => []
  | fuel + 1 =>
    match l with
    | [] => []
    | _ :: rest =>
      match matchAt l with
      | some rem =>
        let len := l.length - rem.length
        if len = 0 then reScanGo fuel (pos + 1) rest
        else (pos, len) :: reScanGo fuel (pos + len) (l.drop len)
      | none => reScanGo fuel (pos + 1) rest

/-- All `PHONE_RE` matches of `s` as `(start, length)` pairs. -/
def reScan (l : List Char) : List (Nat × Nat) :=
  reScanGo l.length 0 l

/-- Python slice `l[a:b]` (clamping, as Python slices do). -/
def sliceL (l : List Char) (a b : Nat) : List Char :=
  (l.take b).drop a

/-- `_clean_local(raw, default_area)` (src/phone_cleaner.py lines 74-84):
strip non-digits, prepend the default area code when exactly 7 digits
remain (and the default is non-empty), prepend `1` when 10 remain, and
return `+digits`. -/
def clean_local (raw : List Char) (default_area : String) : List Char :=
  let digits := raw.filter Char.isDigit
  let digits :=
    if digits.length = 7 && default_area ≠ "" then
      default_area.toList ++ digits
    else digits
  let digits := if digits.length = 10 then '1' :: digits else digits
  '+' :: digits

/-- The leading-area-code regex of `_label_for`
(src/phone_cleaner.py line 95): `re.match(r"\D*1?\D*(\d{3})", span)`.
`\D*` skips to the first digit; if that digit is `1` the engine consumes
it and tries again (`1?` greedy), falling back to not consuming it when
fewer than three digits follow the next digit position. -/
def acParse (span : List Char) : Option (List Char) :=
  let rest := span.dropWhile (fun c => !c.isDigit)
  match rest with
  | [] => none
  | c :: r =>
    if c = '1' then
      let r2 := r.dropWhile (fun d => !d.isDigit)
      match r2 with
      | a :: b :: c2 :: _ =>
        if a.isDigit && b.isDigit && c2.isDigit then some [a, b, c2]
        else three rest
      | _ => three rest
    else three rest
where three (l : List Char) : Option (List Char) :=
  match l with
  | a :: b :: c :: _ =>
    if a.isDigit && b.isDigit && c.isDigit then some [a, b, c] else none
  | _ => none

/-- Case-sensitive literal search used by the keyword stage:
does (lowercase) `kw` occur in `window` delimited by `\b` on both sides?
`prev` is the character before the current suffix. -/
def kwSearchGo (kw : List Char) (prev : Option Char) (w : List Char) : Bool :=
  match w with
  | [] => false
  | c :: rest =>
    (decide ((c :: rest).take kw.length = kw) &&
     (match kw.head? with
      | some k0 => boundaryOk prev k0
      | none => false) &&
     (match kw.getLast? with
      | some kn =>
        (match (c :: rest).drop kw.length with
         | [] => isWordC kn
         | d :: _ => isWordC kn != isWordC d)
      | none => false)) ||
    kwSearchGo kw (some c) rest

/-- `re.search(rf"\b{re.escape(kw)}\b", window)` for a lowercase keyword
literal against a lowercased window (src/phone_cleaner.py line 102). -/
def kwSearch (kw : String) (window : List Char) : Bool :=
  kwSearchGo kw.toList none window

/-- The keyword stage of `_label_for` (src/phone_cleaner.py lines 100-103):
the first label whose keyword list has a member found in the window. -/
def keywordLabel (window : List Char) : Option String :=
  KEYWORDS.foldl
    (fun acc kv =>
      match acc with
      | some _ => acc
      | none => if kv.2.any (fun kw => kwSearch kw window) then some kv.1
                else none)
    none

/-- The single-letter shorthand stage of `_label_for`
(src/phone_cleaner.py lines 105-112): `text[max(0, start-2):start]`
stripped and lowered, mapped through the three shorthand sets. -/
def shorthandLabel (text : List Char) (start : Nat) : String :=
  let single := String.mk (toLowerL (trimWs (sliceL text (start - 2) start)))
  if single = "c" || single = "m" then "cell"
  else if single = "t" || single = "o" || single = "w" then "work"
  else if single = "h" || single = "r" then "home"
  else "other"

/-- `_label_for(text, start, end)` (src/phone_cleaner.py lines 87-114):
toll-free area code first, then keyword cues in a window of surrounding
text, then single-letter shorthands immediately before the number,
otherwise `other`.  (Python `.lower()` is modelled on its ASCII fragment;
every input under consideration is ASCII.) -/
def label_for (text : List Char) (start endp : Nat) : String :=
  let window := toLowerL (sliceL text (start - 40) (endp + 15))
  let span := sliceL text start endp
  let tollfree :=
    match acParse span with
    | some code => TOLL_FREE_CODES.contains (String.mk code)
    | none => false
  if tollfree then "tollfree"
  else
    match keywordLabel window with
    | some label => label
    | none => shorthandLabel text start

/-! ### Models of the `phonenumbers` library calls

`extract_numbers` uses three library features: `PhoneNumberMatcher`,
`phonenumbers.parse` and `format_number(·, NATIONAL)`.  They are modelled
on the NANP (`+1`) fragment the script operates in:

* `parseFmt` models `format_number(phonenumbers.parse(cleaned, "US"),
  NATIONAL)` on the strings `_clean_local` emits with a three-digit
  default area such as the configured `204`: `+1` followed by digits
  (candidates carry 7, 8, 10 or 11 digits; the `1` is either prepended
  by the ten-digit step of `_clean_local` or is the candidate's own
  leading country code).  Following the library's parse algorithm: the country
  code `1` is extracted first; the US national prefix `1` is then
  stripped from the remainder exactly when the stripped number keeps at
  least ten digits (a shorter stripped number is possible-local-only,
  too short or of invalid length for the US, all of which block the
  strip); parsing raises `NumberParseException` only when the resulting
  national number has fewer than 2 or more than 17 digits — it performs
  no validity check.  `format_number(·, NATIONAL)` applies the US
  national format patterns — `AAA-BBBB` for seven digits,
  `(AAA) BBB-CCCC` for ten — and returns a national number of any other
  length as its bare digits (no pattern matches it).
* `matcherFinds` models `PhoneNumberMatcher(s, "CA")` (default leniency
  VALID): candidates are phone-shaped substrings whose digits form a
  valid NANP number — ten digits, optionally preceded by the country
  code `1`, with area code and exchange both starting in `2`-`9` — and
  each match reports the span and the nationally formatted number.
  Candidate spans are taken from the same phone-shaped scan as the
  fallback pattern; on the dash-separated inputs considered in the
  theorems below this coincides with the library's candidate finder. -/

/-- Format a ten-digit national significant number as `(AAA) BBB-CCCC`. -/
def fmtNational (nsn : List Char) : List Char :=
  '(' :: nsn.take 3 ++ [')', ' '] ++ (nsn.drop 3).take 3 ++ ['-'] ++ nsn.drop 6

/-- The US `NATIONAL` number formats: `AAA-BBBB` for a seven-digit
national number, `(AAA) BBB-CCCC` for a ten-digit one; `format_number`
returns any other length unformatted (no format pattern matches it). -/
def usFormatNsn (nsn : List Char) : List Char :=
  if nsn.length = 7 then nsn.take 3 ++ '-' :: nsn.drop 3
  else if nsn.length = 10 then fmtNational nsn
  else nsn

/-- Model of `format_number(parse(cleaned, "US"), NATIONAL)`; see the
section comment. -/
def parseFmt (cleaned : List Char) : Option (List Char) :=
  match cleaned with
  | '+' :: '1' :: nsn0 =>
    if nsn0.all Char.isDigit then
      let nsn := if 11 ≤ nsn0.length ∧ nsn0.head? = some '1'
                 then nsn0.tail else nsn0
      if 2 ≤ nsn.length ∧ nsn.length ≤ 17 then some (usFormatNsn nsn)
      else none
    else none
  | _ => none

/-- Is the ten-digit national number NANP-valid (area code and exchange
both start with `2`-`9`)? -/
def validNANP (nsn : List Char) : Bool :=
  match nsn.get? 0, nsn.get? 3 with
  | some a, some e =>
    decide (nsn.length = 10) && nsn.all Char.isDigit &&
    decide ('2' ≤ a) && decide (a ≤ '9') && decide ('2' ≤ e) && decide (e ≤ '9')
  | _, _ => false

/-- The national significant number of a candidate's digit content: ten
digits as-is, eleven digits with leading country code `1` stripped. -/
def nsnOf (digits : List Char) : Option (List Char) :=
  if digits.length = 10 then some digits
  else if digits.length = 11 && digits.head? = some '1' then some digits.tail
  else none

/-- Model of `PhoneNumberMatcher(s, "CA")`; see the section comment.
Returns `(start, length, formatted)` triples. -/
def matcherFinds (l : List Char) : List (Nat × Nat × List Char) :=
  (reScan l).filterMap (fun p =>
    let span := sliceL l p.1 (p.1 + p.2)
    match nsnOf (span.filter Char.isDigit) with
    | some nsn =>
      if validNANP nsn then some (p.1, p.2, fmtNational nsn) else none
    | none => none)

/-- The seven bucket labels, in the insertion order of the `buckets` dict
(src/phone_cleaner.py lines 122-124). -/
def labels7 : List String :=
  ["cell", "home", "work", "office", "fax", "tollfree", "other"]

/-- The fresh all-empty buckets mapping. -/
def emptyBuckets : List (String × List String) :=
  labels7.map (fun k => (k, []))

/-- `buckets[label].add(v)`: set-insert into the bucket of `label`. -/
def addTo (bs : List (String × List String)) (k v : String) :
    List (String × List String) :=
  bs.map (fun p => if p.1 = k then (p.1, if p.2.contains v then p.2
                                         else p.2 ++ [v]) else p)

/-- Python-style comparison of formatted numbers for `sorted`. -/
def strLe (s t : String) : Bool := lexLe s.toList t.toList

/-- `sorted(v)` on a bucket. -/
def sortBucket (v : List String) : List String :=
  List.insertionSort (fun a b => strLe a b = true) v

/-- `extract_numbers(s, default_area)` on an actual string
(src/phone_cleaner.py lines 117-148): pass 1 adds each
`PhoneNumberMatcher` match's nationally formatted number under its
inferred label; pass 2 adds, for each `PHONE_RE` candidate, the formatted
repaired number, or the raw matched text when parsing fails; buckets
become sorted lists and empty buckets are dropped. -/
def extract_numbers_str (s : String) (default_area : String) :
    List (String × List String) :=
  let cs := s.toList
  let b1 := (matcherFinds cs).foldl
    (fun bs m => addTo bs (label_for cs m.1 (m.1 + m.2.1)) (String.mk m.2.2))
    emptyBuckets
  let b2 := (reScan cs).foldl
    (fun bs p =>
      let raw := sliceL cs p.1 (p.1 + p.2)
      let entry := match parseFmt (clean_local raw default_area) with
        | some f => String.mk f
        | none => String.mk raw
      addTo bs (label_for cs p.1 (p.1 + p.2)) entry)
    b1
  (b2.map (fun p => (p.1, sortBucket p.2))).filter (fun p => !p.2.isEmpty)

/-- A value passed to `extract_numbers`: a string or any non-string value
(the `not isinstance(s, str)` guard). -/
inductive PyVal where
  | str : String → PyVal
  | nonstr : PyVal
deriving DecidableEq, Repr

/-- `extract_numbers(s, default_area)` (src/phone_cleaner.py lines
117-148).  A non-string input returns the freshly built mapping with all
seven labels and empty collections (the early `return buckets`); a string
input is processed and only non-empty buckets survive, as sorted lists. -/
def extract_numbers (v : PyVal) (default_area : String) :
    List (String × List String) :=
  match v with
  | .nonstr => emptyBuckets
  | .str s => extract_numbers_str s default_area

/-- The bucket of a label in an `extract_numbers` result (missing label =
empty bucket). -/
def bucketOf (bs : List (String × List String)) (k : String) : List String :=
  match bs.find? (fun p => p.1 = k) with
  | some p => p.2
  | none => []

/-! ## Generic auxiliary lemmas -/

/-- Whitespace characters are ASCII. -/
theorem isWs_ascii {c : Char} (h : isWs c = true) : c.toNat < 128 := by
  simp only [isWs, Bool.or_eq_true, decide_eq_true_eq] at h
  rcases h with ((((h | h) | h) | h) | h) | h <;> subst h <;> decide

/-- Whitespace characters are not alphanumeric. -/
theorem isWs_not_alnum {c : Char} (h : isWs c = true) :
    c.isAlphanum = false := by
  simp only [isWs, Bool.or_eq_true, decide_eq_true_eq] at h
  rcases h with ((((h | h) | h) | h) | h) | h <;> subst h <;> decide

/-- If every character is whitespace, stripping gives the empty list. -/
theorem trimWs_eq_nil {l : List Char} (h : ∀ c ∈ l, isWs c = true) :
    trimWs l = [] := by
  unfold trimWs
  have h1 : l.dropWhile isWs = [] := List.dropWhile_eq_nil_iff.mpr h
  simp [h1]

/-- Conversely, a string that strips to empty is all whitespace. -/
theorem all_ws_of_trimWs_nil {l : List Char} (h : trimWs l = []) :
    ∀ c ∈ l, isWs c = true := by
  unfold trimWs at h
  have h2 : (l.dropWhile isWs).reverse.dropWhile isWs = [] := by
    rcases List.reverse_eq_nil_iff.mp h with h3
    exact h3
  have h4 : ∀ c ∈ (l.dropWhile isWs).reverse, isWs c = true :=
    List.dropWhile_eq_nil_iff.mp h2
  intro c hc
  rcases List.mem_append.mp
    ((List.takeWhile_append_dropWhile (p := isWs) (l := l)) ▸ hc) with h5 | h5
  · exact List.mem_takeWhile_imp h5
  · exact h4 c (List.mem_reverse.mpr h5)

/-- `toList` of a made string is the underlying list. -/
theorem toList_mk (l : List Char) : (String.mk l).toList = l := rfl

/-- `String.mk l = ""` iff `l = []`. -/
theorem mk_eq_empty_iff {l : List Char} : String.mk l = "" ↔ l = [] := by
  constructor
  · intro h
    have h2 := congrArg String.data h
    simpa using h2
  · intro h; rw [h]

/-! ## C1: existing classification handling (src/add_NAISC.py 270-300) -/

/-- Claim C1 (counterexample): with taxonomy title table
`{"111110": "Soybean Farming"}` and reference index
`{"soybean farming": "111110"}`, a row whose existing `NAICS_Code` is
`"999999"` (whose title lookup is `""`, scoring 0 against the cleaned
source text) and whose source text is `"soybean farming"` (fresh fuzzy
match `111110` at score 100) keeps `"999999"`.  The claim predicts the
higher-scoring fresh match `["111110"]`; the code returns `["999999"]`,
so the claim is false: no score comparison happens at all. -/
theorem c1_counterexample :
    processRow [("111110", "Soybean Farming")] ["soybean farming"]
        [("soybean farming", "111110")] 80 "999999" ["soybean farming"]
      = (["999999"], [""]) ∧
    tokenSetScore (clean_text_str "soybean farming")
        (([("111110", "Soybean Farming")].lookup "999999").getD "") = 0 ∧
    fuzzy_naics (clean_text_str "soybean farming") ["soybean farming"]
        [("soybean farming", "111110")] 80
      = (some "111110", some "soybean farming", 100) ∧
    (["999999"] : List String) ≠ ["111110"] := by
  refine ⟨by decide, by decide, by decide, by decide⟩

/-- Claim C1 (amended): whenever the stripped existing `NAICS_Code` value
is non-empty, the row-processing loop keeps exactly that value together
with its `TITLE_BY_CODE` lookup (defaulting to `""`); no fresh fuzzy
match is computed and no score comparison takes place. -/
theorem c1_existing_kept_unconditionally
    (T : List (String × String)) (choices : List String)
    (codeLookup : List (String × String)) (cutoff : Nat)
    (existingRaw : String) (srcCols : List String)
    (h : trimS existingRaw ≠ "") :
    processRow T choices codeLookup cutoff existingRaw srcCols
      = ([trimS existingRaw], [(T.lookup (trimS existingRaw)).getD ""]) := by
  simp only [processRow]
  rw [if_pos h]

/-- Witness for `c1_existing_kept_unconditionally` at a concrete row. -/
theorem c1_witness :
    processRow [("311111", "Dog Food")] [] [] 80 " 311111 " []
      = (["311111"], ["Dog Food"]) := by
  have h := c1_existing_kept_unconditionally [("311111", "Dog Food")] [] []
    80 " 311111 " [] (by decide)
  rw [h]; decide

/-! ## C3: toll-free override in `_label_for` (src/phone_cleaner.py 87-114) -/

/-- Claim C3: for every phone-field text and matched span, if the span's
leading area code (as extracted by `re.match(r"\D*1?\D*(\d{3})", span)`)
belongs to `TOLL_FREE_CODES`, the label is `tollfree`, regardless of any
keyword cues in the surrounding window or single-letter shorthands: the
toll-free check runs first and overrides all other labeling rules. -/
theorem c3_tollfree_overrides (text : List Char) (start endp : Nat)
    (code : List Char)
    (hac : acParse (sliceL text start endp) = some code)
    (htf : TOLL_FREE_CODES.contains (String.mk code) = true) :
    label_for text start endp = "tollfree" := by
  simp only [label_for, hac, htf, if_pos]

/-- Witness for `c3_tollfree_overrides`: the window contains the keyword
`fax`, yet the toll-free area code 800 wins. -/
theorem c3_witness :
    label_for ("fax 1-800-555-1234".toList) 4 18 = "tollfree" :=
  c3_tollfree_overrides ("fax 1-800-555-1234".toList) 4 18
    ['8', '0', '0'] (by decide) (by decide)

/-! ## C4: hierarchy expansion `split_chain` (src/add_NAISC.py 95-113) -/

/-- Claim C4 (counterexample): the claim derives each slot by truncating
*the input code* and right-padding, with no left-padding.  On the 2-digit
input `"23"` with taxonomy `{"230000": "Mfg"}` that reading gives sector
`"Mfg"`, but the code first applies `zfill(6)` (giving `"000023"`, whose
2-prefix is `"00"`), so `split_chain` returns an empty sector. -/
theorem c4_counterexample :
    split_chain [("230000", "Mfg")] "23" ≠ chainClaim [("230000", "Mfg")] "23" ∧
    (split_chain [("230000", "Mfg")] "23").sector = "" ∧
    (chainClaim [("230000", "Mfg")] "23").sector = "Mfg" := by
  refine ⟨by decide, by decide, by decide⟩

/-- `List.lookup` on a `String`-keyed association list agrees with
`find?` on the key equality test. -/
theorem lookup_eq_find (T : List (String × String)) (k : String) :
    T.lookup k = (T.find? (fun q => q.1 = k)).map Prod.snd := by
  induction T with
  | nil => rfl
  | cons p ps ih =>
    by_cases h : p.1 = k
    · simp [List.lookup, List.find?, h, beq_iff_eq]
    · have h2 : (k == p.1) = false := by
        simp only [beq_eq_false_iff_ne, ne_eq]
        exact fun hk => h hk.symm
      simp [List.lookup, List.find?, h, h2, ih]

/-- `getD ""` after projecting the pair agrees with the `match` form used
in the claim-side chain definitions. -/
theorem getD_map_snd (o : Option (String × String)) :
    (o.map Prod.snd).getD "" = (match o with | some q => q.2 | none => "") := by
  cases o <;> rfl

/-- Claim C4 (amended): the code is first left-zero-padded to six digits by
`zfill(6)`; for inputs of at most six characters each slot then equals the
claim's formula applied to the padded code — truncate to the level's
prefix width, right-pad with zeros to six digits, look up, `""` when the
taxonomy has no such node.  Non-digit (or empty) input yields the all-empty
chain; the function is total, so it never raises. -/
theorem c4_expansion_amended :
    (∀ (T : List (String × String)) (code : String),
      code.toList.length ≤ 6 →
      split_chain T code = chainAmended T code) ∧
    (∀ (T : List (String × String)) (code : String),
      pyIsDigit code = false → split_chain T code = emptyChain) := by
  constructor
  · intro T code hlen
    by_cases hd : pyIsDigit code
    · have hlen2 : code.length ≤ 6 := hlen
      have hz : (zfill6 code).length = 6 := by
        simp only [zfill6]
        by_cases h6 : code.length < 6
        · rw [if_pos h6]
          show (String.mk (List.replicate (6 - code.length) '0') ++ code).data.length = 6
          rw [String.data_append]
          simp only [List.length_append, List.length_replicate]
          show 6 - code.length + code.data.length = 6
          have : code.data.length = code.length := rfl
          omega
        · rw [if_neg h6]
          omega
      have htake : strTake (zfill6 code) 6 = zfill6 code := by
        simp only [strTake]
        have : (zfill6 code).toList.length = 6 := hz
        rw [List.take_of_length_le (by omega)]
        exact rfl
      have hjust : ljust6 (strTake (zfill6 code) 6) = zfill6 code := by
        rw [htake]
        simp only [ljust6]
        rw [if_neg (by omega)]
      simp only [split_chain, chainAmended, hd, Bool.not_true, if_false,
        lookup_eq_find, hjust, getD_map_snd]
    · simp [split_chain, chainAmended, hd]
  · intro T code hd
    simp [split_chain, hd]

/-- Witness for `c4_expansion_amended` at a concrete taxonomy. -/
theorem c4_witness :
    split_chain [("110000", "Agriculture"), ("111110", "Soybean farming")]
        "111110"
      = chainAmended [("110000", "Agriculture"), ("111110", "Soybean farming")]
        "111110" ∧
    split_chain [("110000", "Agriculture")] "23abc" = emptyChain :=
  ⟨c4_expansion_amended.1 _ "111110" (by decide),
   c4_expansion_amended.2 _ "23abc" (by decide)⟩

/-! ## C5: normalizer edge cases (src/add_NAISC.py 141-189) -/

/-- Claim C5 (counterexample): `"&"` survives every normalization step, so
`clean_text` returns `"&"` — a non-empty string consisting only of
punctuation — because the final check strips only `.`, `-` and spaces,
not all punctuation. -/
theorem c5_counterexample :
    clean_text (.str "&") = "&" ∧
    (∀ c ∈ "&".toList, c.isAlphanum = false ∧ isWs c = false) ∧
    "&" ≠ "" := by
  refine ⟨by decide, by decide, by decide⟩

/-- Claim C5 (amended): null/NaN input and blank (empty or
whitespace-only) input yield `""`; and whenever the result consists only
of `.`, `-` and space characters, the result is in fact `""` (the final
`txt.strip(".- ")` check).  The embedding is total, so `clean_text` never
raises. -/
theorem c5_blank_and_strip :
    clean_text .na = "" ∧
    (∀ s, trimS s = "" → clean_text (.str s) = "") ∧
    (∀ v, stripDMl (clean_text v).toList = [] → clean_text v = "") := by
  refine ⟨rfl, ?_, ?_⟩
  · intro s h
    simp only [clean_text, clean_text_str, h, if_pos]
  · intro v h
    cases v with
    | na => rfl
    | str s =>
      simp only [clean_text] at h ⊢
      unfold clean_text_str at h ⊢
      by_cases h1 : trimS s = ""
      · rw [if_pos h1]
      · rw [if_neg h1] at h ⊢
        by_cases h2 : stripDMl (cleanCore s) = []
        · rw [if_pos h2]
        · rw [if_neg h2] at h ⊢
          rw [toList_mk] at h
          exact absurd h h2

/-- Witness for `c5_blank_and_strip` at concrete blank and
dot-dash-remainder inputs. -/
theorem c5_witness :
    clean_text (.str "   ") = "" ∧ clean_text (.str " . - ") = "" :=
  ⟨c5_blank_and_strip.2.1 "   " (by decide),
   c5_blank_and_strip.2.2 (.str " . - ") (by decide)⟩

/-! ## C2: fuzzy matcher result vs cutoff (src/add_NAISC.py 191-218) -/

/-- The score-tracking fold of `extractOne` never loses an accumulated
result. -/
theorem extractOne_fold_some (q : String) (cutoff : Nat) :
    ∀ (cs : List String) (b : String × Nat),
      (cs.foldl
        (fun best c =>
          let sc := tokenSetScore q c
          match best with
          | none => if cutoff ≤ sc then some (c, sc) else none
          | some b => if b.2 < sc then some (c, sc) else some b)
        (some b)) ≠ none := by
  intro cs
  induction cs with
  | nil => intro b h; exact Option.noConfusion h
  | cons c cs ih =>
    intro b
    simp only [List.foldl]
    by_cases h : b.2 < tokenSetScore q c
    · rw [if_pos h]; exact ih _
    · rw [if_neg h]; exact ih _

/-- `extractOne` returns `none` exactly when no choice reaches the
cutoff. -/
theorem extractOne_none_iff (q : String) (cs : List String) (cutoff : Nat) :
    extractOne q cs cutoff = none ↔
      ∀ c ∈ cs, tokenSetScore q c < cutoff := by
  unfold extractOne
  induction cs with
  | nil => simp
  | cons c cs ih =>
    simp only [List.foldl]
    by_cases h : cutoff ≤ tokenSetScore q c
    · rw [if_pos h]
      constructor
      · intro hn; exact absurd hn (extractOne_fold_some q cutoff cs _)
      · intro hall
        exact absurd (hall c (List.mem_cons_self c cs)) (not_lt.mpr h)
    · rw [if_neg h]
      rw [ih]
      constructor
      · intro hall
        intro d hd
        rcases List.mem_cons.mp hd with h3 | h3
        · rw [h3]; exact not_le.mp h
        · exact hall d h3
      · intro hall d hd
        exact hall d (List.mem_cons_of_mem _ hd)

/-- What `extractOne` returns is one of the choices, together with its
score (or the starting accumulator). -/
theorem extractOne_fold_mem (q : String) (cutoff : Nat) :
    ∀ (cs : List String) (acc : Option (String × Nat)) (p : String × Nat),
      (cs.foldl
        (fun best c =>
          let sc := tokenSetScore q c
          match best with
          | none => if cutoff ≤ sc then some (c, sc) else none
          | some b => if b.2 < sc then some (c, sc) else some b)
        acc) = some p →
      acc = some p ∨ (p.1 ∈ cs ∧ p.2 = tokenSetScore q p.1) := by
  intro cs
  induction cs with
  | nil => intro acc p h; exact Or.inl h
  | cons c cs ih =>
    intro acc p h
    simp only [List.foldl] at h
    rcases ih _ p h with h2 | h2
    · cases acc with
      | none =>
        simp only at h2
        by_cases h3 : cutoff ≤ tokenSetScore q c
        · rw [if_pos h3] at h2
          right
          have h4 : p = (c, tokenSetScore q c) := Option.some.inj h2.symm ▸ rfl
          rcases Option.some.inj h2 with h5
          refine ⟨?_, ?_⟩
          · rw [← h5]; exact List.mem_cons_self c cs
          · rw [← h5]
        · rw [if_neg h3] at h2; exact Option.noConfusion h2
      | some b =>
        simp only at h2
        by_cases h3 : b.2 < tokenSetScore q c
        · rw [if_pos h3] at h2
          rcases Option.some.inj h2 with h5
          right
          refine ⟨?_, ?_⟩
          · rw [← h5]; exact List.mem_cons_self c cs
          · rw [← h5]
        · rw [if_neg h3] at h2
          left; exact h2
    · right
      exact ⟨List.mem_cons_of_mem _ h2.1, h2.2⟩

/-- Every score is bounded by the running `bestScore` fold. -/
theorem bestScore_fold_ge (q : String) :
    ∀ (cs : List String) (init : Nat), init ≤
      cs.foldl (fun m c => max m (tokenSetScore q c)) init := by
  intro cs
  induction cs with
  | nil => intro init; exact le_refl _
  | cons c cs ih =>
    intro init
    simp only [List.foldl]
    exact le_trans (le_max_left _ _) (ih _)

/-- A member's score is bounded by the running `bestScore` fold. -/
theorem score_le_fold (q : String) :
    ∀ (cs : List String) (init : Nat) (c : String), c ∈ cs →
      tokenSetScore q c ≤
        cs.foldl (fun m d => max m (tokenSetScore q d)) init := by
  intro cs
  induction cs with
  | nil => intro init c hc; cases hc
  | cons d ds ih =>
    intro init c hc
    simp only [List.foldl]
    rcases List.mem_cons.mp hc with h | h
    · subst h
      exact le_trans (le_max_right _ _) (bestScore_fold_ge q ds _)
    · exact ih _ c h

/-- A member's score is bounded by `bestScore`. -/
theorem score_le_bestScore (q : String) (cs : List String) (c : String)
    (hc : c ∈ cs) : tokenSetScore q c ≤ bestScore q cs :=
  score_le_fold q cs 0 c hc

/-- Reaching the `bestScore` fold means some element (or the seed) reaches
the bound. -/
theorem fold_max_le_iff (q : String) :
    ∀ (cs : List String) (init cutoff : Nat),
      (cutoff ≤ cs.foldl (fun m c => max m (tokenSetScore q c)) init ↔
        (cutoff ≤ init ∨ ∃ c ∈ cs, cutoff ≤ tokenSetScore q c)) := by
  intro cs
  induction cs with
  | nil => intro init cutoff; simp
  | cons c ds ih =>
    intro init cutoff
    simp only [List.foldl]
    rw [ih]
    constructor
    · rintro (h | h)
      · rcases le_max_iff.mp h with h2 | h2
        · exact Or.inl h2
        · exact Or.inr ⟨c, List.mem_cons_self c ds, h2⟩
      · rcases h with ⟨d, hd, h2⟩
        exact Or.inr ⟨d, List.mem_cons_of_mem _ hd, h2⟩
    · rintro (h | h)
      · exact Or.inl (le_max_iff.mpr (Or.inl h))
      · rcases h with ⟨d, hd, h2⟩
        rcases List.mem_cons.mp hd with h3 | h3
        · subst h3
          exact Or.inl (le_max_iff.mpr (Or.inr h2))
        · exact Or.inr ⟨d, h3, h2⟩

/-- All-whitespace input full-processes to the empty token text. -/
theorem fullProcess_of_all_ws {l : List Char}
    (h : ∀ c ∈ l, isWs c = true) : fullProcessL l = [] := by
  unfold fullProcessL
  apply trimWs_eq_nil
  intro c hc
  rcases List.mem_map.mp hc with ⟨d, hd, hdc⟩
  have hdw : isWs d = true := h d (List.mem_filter.mp hd).1
  have hna : d.isAlphanum = false := isWs_not_alnum hdw
  have : (if d.isAlphanum then d.toLower else ' ') = ' ' := by
    rw [hna]; rfl
  rw [← hdc, this]
  decide

/-- A blank (whitespace-only) query scores 0 against every phrase: the
full-process step erases it, and an empty token set scores 0. -/
theorem tokenSetScore_blank {q : String} (h : trimS q = "") (c : String) :
    tokenSetScore q c = 0 := by
  have hall : ∀ d ∈ q.toList, isWs d = true := by
    apply all_ws_of_trimWs_nil
    exact mk_eq_empty_iff.mp h
  have hfp : fullProcessL q.toList = [] := fullProcess_of_all_ws hall
  unfold tokenSetScore
  rw [hfp]
  rfl

/-- The accumulated candidate of the `extractOne` fold always clears the
cutoff. -/
theorem extractOne_fold_ge (q : String) (cutoff : Nat) :
    ∀ (cs : List String) (acc : Option (String × Nat)),
      (∀ b, acc = some b → cutoff ≤ b.2) →
      ∀ p, (cs.foldl
        (fun best c =>
          let sc := tokenSetScore q c
          match best with
          | none => if cutoff ≤ sc then some (c, sc) else none
          | some b => if b.2 < sc then some (c, sc) else some b)
        acc) = some p → cutoff ≤ p.2 := by
  intro cs
  induction cs with
  | nil => intro acc hacc p h; exact hacc p h
  | cons c cs ih =>
    intro acc hacc p h
    simp only [List.foldl] at h
    refine ih _ ?_ p h
    intro b hb
    cases acc with
    | none =>
      simp only at hb
      by_cases h3 : cutoff ≤ tokenSetScore q c
      · rw [if_pos h3] at hb
        rcases Option.some.inj hb with h5
        rw [← h5]
        exact h3
      · rw [if_neg h3] at hb; exact Option.noConfusion hb
    | some b2 =>
      simp only at hb
      by_cases h3 : b2.2 < tokenSetScore q c
      · rw [if_pos h3] at hb
        rcases Option.some.inj hb with h5
        rw [← h5]
        exact le_of_lt (lt_of_le_of_lt (hacc b2 rfl) h3)
      · rw [if_neg h3] at hb
        rcases Option.some.inj hb with h5
        rw [← h5]
        exact hacc b2 rfl

/-- When no phrase clears the cutoff, `fuzzy_naics` is the null triad. -/
theorem fuzzy_null_of_lt (q : String) (cs : List String)
    (codeLookup : List (String × String)) (cutoff : Nat)
    (hlt : bestScore q cs < cutoff) :
    fuzzy_naics q cs codeLookup cutoff = (none, none, 0) := by
  unfold fuzzy_naics
  by_cases hq : trimS q = ""
  · rw [if_pos hq]
  · rw [if_neg hq]
    have hE : extractOne q cs cutoff = none := by
      rw [extractOne_none_iff]
      intro c hc
      exact lt_of_le_of_lt (score_le_bestScore q cs c hc) hlt
    rw [hE]

/-- Claim C2: for a positive cutoff and a reference index that covers all
choices, `fuzzy_naics` returns a fully non-null `(code, title, score)`
triple exactly when the best token-set similarity score over the reference
phrases reaches the cutoff, and returns the null triad `(None, None, 0)`
when no phrase does.  The embedding is total, so the matcher never
raises. -/
theorem c2_match_iff_cutoff (q : String) (choices : List String)
    (codeLookup : List (String × String)) (cutoff : Nat)
    (hcut : 0 < cutoff)
    (hcov : ∀ c ∈ choices, (codeLookup.lookup c).isSome = true) :
    (cutoff ≤ bestScore q choices ↔
      ∃ code title sc, fuzzy_naics q choices codeLookup cutoff
        = (some code, some title, sc) ∧ cutoff ≤ sc) ∧
    (bestScore q choices < cutoff →
      fuzzy_naics q choices codeLookup cutoff = (none, none, 0)) := by
  refine ⟨⟨?_, ?_⟩, fuzzy_null_of_lt q choices codeLookup cutoff⟩
  · intro hbest
    have hex : ∃ c ∈ choices, cutoff ≤ tokenSetScore q c := by
      rcases (fold_max_le_iff q choices 0 cutoff).mp hbest with h | h
      · omega
      · exact h
    rcases hex with ⟨c, hc, hge⟩
    have hq : trimS q ≠ "" := by
      intro h0
      rw [tokenSetScore_blank h0 c] at hge
      omega
    cases hE : extractOne q choices cutoff with
    | none =>
      exact absurd ((extractOne_none_iff q choices cutoff).mp hE c hc)
        (not_lt.mpr hge)
    | some p =>
      obtain ⟨c1, s1⟩ := p
      have hmem : c1 ∈ choices ∧ s1 = tokenSetScore q c1 := by
        rcases extractOne_fold_mem q cutoff choices none (c1, s1) hE
          with h2 | h2
        · exact Option.noConfusion h2
        · exact h2
      have hsge : cutoff ≤ s1 :=
        extractOne_fold_ge q cutoff choices none
          (fun b hb => Option.noConfusion hb) (c1, s1) hE
      obtain ⟨code, hcode⟩ :=
        Option.isSome_iff_exists.mp (hcov c1 hmem.1)
      refine ⟨code, c1, s1, ?_, hsge⟩
      unfold fuzzy_naics
      rw [if_neg hq, hE]
      show (codeLookup.lookup c1, some c1, s1) = (some code, some c1, s1)
      rw [hcode]
  · rintro ⟨code, title, sc, heq, -⟩
    by_contra hnot
    have hlt : bestScore q choices < cutoff := not_le.mp hnot
    rw [fuzzy_null_of_lt q choices codeLookup cutoff hlt] at heq
    simp at heq

/-- Witness for `c2_match_iff_cutoff` at a concrete query and index. -/
theorem c2_witness :
    (80 ≤ bestScore "Soybean Farming" ["soybean farming"] ↔
      ∃ code title sc,
        fuzzy_naics "Soybean Farming" ["soybean farming"]
          [("soybean farming", "111110")] 80
          = (some code, some title, sc) ∧ 80 ≤ sc) ∧
    (bestScore "Soybean Farming" ["soybean farming"] < 80 →
      fuzzy_naics "Soybean Farming" ["soybean farming"]
        [("soybean farming", "111110")] 80 = (none, none, 0)) :=
  c2_match_iff_cutoff "Soybean Farming" ["soybean farming"]
    [("soybean farming", "111110")] 80 (by decide) (by decide)

/-! ## Ordering lemmas for the code-point comparison -/

/-- `Char.toNat` is injective. -/
theorem char_toNat_inj {a b : Char} (h : a.toNat = b.toNat) : a = b :=
  Char.eq_of_val_eq (UInt32.toNat.inj h)

/-- `lexLe` is total. -/
theorem lexLe_total : ∀ as bs : List Char,
    lexLe as bs = true ∨ lexLe bs as = true := by
  intro as
  induction as with
  | nil => intro bs; exact Or.inl rfl
  | cons a at2 ih =>
    intro bs
    cases bs with
    | nil => exact Or.inr rfl
    | cons b bt =>
      simp only [lexLe]
      by_cases hab : a = b
      · have hba : b = a := hab.symm
        rw [if_pos hab, if_pos hba]
        exact ih bt
      · have hba : ¬b = a := fun h => hab h.symm
        rw [if_neg hab, if_neg hba]
        have hne : a.toNat ≠ b.toNat := fun h => hab (char_toNat_inj h)
        rcases Nat.lt_or_ge a.toNat b.toNat with h | h
        · exact Or.inl (decide_eq_true h)
        · have h2 : b.toNat < a.toNat := by omega
          exact Or.inr (decide_eq_true h2)

/-- `lexLe` is transitive. -/
theorem lexLe_trans : ∀ as bs cs : List Char,
    lexLe as bs = true → lexLe bs cs = true → lexLe as cs = true := by
  intro as
  induction as with
  | nil => intro bs cs h1 h2; rfl
  | cons a at2 ih =>
    intro bs cs h1 h2
    cases bs with
    | nil => exact absurd h1 (by simp [lexLe])
    | cons b bt =>
      cases cs with
      | nil => exact absurd h2 (by simp [lexLe])
      | cons c ct =>
        simp only [lexLe] at h1 h2 ⊢
        by_cases hab : a = b
        · subst hab
          rw [if_pos rfl] at h1
          by_cases hac : a = c
          · subst hac
            rw [if_pos rfl] at h2 ⊢
            exact ih bt ct h1 h2
          · rw [if_neg hac] at h2 ⊢
            exact h2
        · rw [if_neg hab] at h1
          have h1n : a.toNat < b.toNat := of_decide_eq_true h1
          by_cases hbc : b = c
          · subst hbc
            rw [if_neg hab]
            exact decide_eq_true h1n
          · rw [if_neg hbc] at h2
            have h2n : b.toNat < c.toNat := of_decide_eq_true h2
            have hac : ¬a = c := by
              intro h
              subst h
              omega
            rw [if_neg hac]
            exact decide_eq_true (Nat.lt_trans h1n h2n)

instance : IsTotal String (fun a b => strLe a b = true) :=
  ⟨fun a b => lexLe_total a.toList b.toList⟩

instance : IsTrans String (fun a b => strLe a b = true) :=
  ⟨fun a b c => lexLe_trans a.toList b.toList c.toList⟩

/-! ## Bucket-membership lemmas for `extract_numbers` -/

/-- `bucketOf` unfolded one step. -/
theorem bucketOf_cons (p : String × List String)
    (ps : List (String × List String)) (k : String) :
    bucketOf (p :: ps) k = if p.1 = k then p.2 else bucketOf ps k := by
  by_cases h : p.1 = k
  · rw [if_pos h]
    unfold bucketOf
    rw [List.find?_cons_of_pos _ (by simpa using h)]
  · rw [if_neg h]
    unfold bucketOf
    rw [List.find?_cons_of_neg _ (by simpa using h)]

/-- `addTo` unfolded one step. -/
theorem addTo_cons (p : String × List String)
    (ps : List (String × List String)) (k v : String) :
    addTo (p :: ps) k v =
      (if p.1 = k then (p.1, if p.2.contains v then p.2 else p.2 ++ [v])
       else p) :: addTo ps k v := by
  unfold addTo
  rw [List.map_cons]

/-- `addTo` never removes a bucket member. -/
theorem mem_bucketOf_addTo {k k2 v w : String} :
    ∀ bs : List (String × List String),
      v ∈ bucketOf bs k → v ∈ bucketOf (addTo bs k2 w) k := by
  intro bs
  induction bs with
  | nil => intro h; exact absurd h (by rw [show bucketOf [] k = [] from rfl]; exact List.not_mem_nil v)
  | cons p ps ih =>
    intro h
    rw [bucketOf_cons] at h
    rw [addTo_cons, bucketOf_cons]
    by_cases hp : p.1 = k
    · rw [if_pos hp] at h
      by_cases hk2 : p.1 = k2
      · rw [if_pos hk2]
        dsimp only
        rw [if_pos hp]
        by_cases hc : p.2.contains w
        · rw [if_pos hc]; exact h
        · rw [if_neg hc]; exact List.mem_append_left _ h
      · rw [if_neg hk2]
        rw [if_pos hp]
        exact h
    · rw [if_neg hp] at h
      by_cases hk2 : p.1 = k2
      · rw [if_pos hk2]
        dsimp only
        rw [if_neg hp]
        exact ih h
      · rw [if_neg hk2]
        rw [if_neg hp]
        exact ih h

/-- A fold of bucket-preserving steps preserves bucket membership. -/
theorem mem_bucketOf_foldl {α : Type} {k v : String}
    (f : List (String × List String) → α → List (String × List String))
    (hf : ∀ bs a, v ∈ bucketOf bs k → v ∈ bucketOf (f bs a) k) :
    ∀ (ms : List α) (bs : List (String × List String)),
      v ∈ bucketOf bs k → v ∈ bucketOf (ms.foldl f bs) k := by
  intro ms
  induction ms with
  | nil => intro bs h; exact h
  | cons m ms ih =>
    intro bs h
    exact ih _ (hf bs m h)

/-- `addTo` inserts its value into the named bucket (when the key is
present). -/
theorem mem_bucketOf_addTo_self {k v : String} :
    ∀ bs : List (String × List String),
      (∃ q ∈ bs, q.1 = k) → v ∈ bucketOf (addTo bs k v) k := by
  intro bs
  induction bs with
  | nil => rintro ⟨q, hq, -⟩; exact absurd hq (List.not_mem_nil q)
  | cons p ps ih =>
    rintro ⟨q, hq, hqk⟩
    rw [addTo_cons, bucketOf_cons]
    by_cases hp : p.1 = k
    · rw [if_pos hp]
      dsimp only
      rw [if_pos hp]
      by_cases hc : p.2.contains v
      · rw [if_pos hc]
        have : v ∈ p.2 := by
          have h2 : List.elem v p.2 = true := hc
          exact List.mem_of_elem_eq_true h2
        exact this
      · rw [if_neg hc]
        exact List.mem_append_right _ (List.mem_singleton.mpr rfl)
    · rw [if_neg hp]
      rw [if_neg hp]
      rcases List.mem_cons.mp hq with h | h
      · exact absurd (h ▸ hqk) hp
      · exact ih ⟨q, h, hqk⟩

/-- `addTo` preserves the presence of a key. -/
theorem exists_key_addTo {k k2 w : String}
    {bs : List (String × List String)} (h : ∃ q ∈ bs, q.1 = k) :
    ∃ q ∈ addTo bs k2 w, q.1 = k := by
  rcases h with ⟨q, hq, hqk⟩
  unfold addTo
  by_cases h2 : q.1 = k2
  · exact ⟨(q.1, if q.2.contains w then q.2 else q.2 ++ [w]),
      List.mem_map.mpr ⟨q, hq, by rw [if_pos h2]⟩, hqk⟩
  · exact ⟨q, List.mem_map.mpr ⟨q, hq, by rw [if_neg h2]⟩, hqk⟩

/-- A fold of key-preserving steps preserves the presence of a key. -/
theorem exists_key_foldl {α : Type} {k : String}
    (f : List (String × List String) → α → List (String × List String))
    (hf : ∀ bs a, (∃ q ∈ bs, q.1 = k) → ∃ q ∈ f bs a, q.1 = k) :
    ∀ (ms : List α) (bs : List (String × List String)),
      (∃ q ∈ bs, q.1 = k) → ∃ q ∈ ms.foldl f bs, q.1 = k := by
  intro ms
  induction ms with
  | nil => intro bs h; exact h
  | cons m ms ih => intro bs h; exact ih _ (hf bs m h)

/-- Every label of `labels7` is a key of the fresh buckets. -/
theorem exists_key_emptyBuckets {k : String} (h : k ∈ labels7) :
    ∃ q ∈ emptyBuckets, q.1 = k :=
  ⟨(k, []), List.mem_map.mpr ⟨k, h, rfl⟩, rfl⟩

/-- Sorting the buckets preserves membership. -/
theorem mem_bucketOf_map_sort {k v : String} :
    ∀ bs : List (String × List String),
      v ∈ bucketOf bs k →
      v ∈ bucketOf (bs.map (fun p => (p.1, sortBucket p.2))) k := by
  intro bs
  induction bs with
  | nil => intro h; exact h
  | cons p ps ih =>
    intro h
    rw [bucketOf_cons] at h
    rw [List.map_cons, bucketOf_cons]
    by_cases hp : p.1 = k
    · rw [if_pos hp] at h
      dsimp only
      rw [if_pos hp]
      exact (List.perm_insertionSort _ p.2).mem_iff.mpr h
    · rw [if_neg hp] at h
      dsimp only
      rw [if_neg hp]
      exact ih h

/-- Dropping empty buckets preserves membership. -/
theorem mem_bucketOf_filter {k v : String} :
    ∀ bs : List (String × List String),
      v ∈ bucketOf bs k →
      v ∈ bucketOf (bs.filter (fun p => !p.2.isEmpty)) k := by
  intro bs
  induction bs with
  | nil => intro h; exact h
  | cons p ps ih =>
    intro h
    rw [bucketOf_cons] at h
    by_cases hp : p.1 = k
    · rw [if_pos hp] at h
      have hne : p.2.isEmpty = false := by
        cases h2 : p.2 with
        | nil => rw [h2] at h; exact absurd h (List.not_mem_nil v)
        | cons x xs => rfl
      rw [List.filter_cons, if_pos (by rw [hne]; rfl)]
      rw [bucketOf_cons, if_pos hp]
      exact h
    · rw [if_neg hp] at h
      rw [List.filter_cons]
      by_cases hkeep : (!p.2.isEmpty) = true
      · rw [if_pos hkeep, bucketOf_cons, if_neg hp]
        exact ih h
      · rw [if_neg hkeep]
        exact ih h

/-- The keyword stage only produces labels of `KEYWORDS`. -/
theorem keywordLabel_mem {w : List Char} {lab : String}
    (h : keywordLabel w = some lab) : ∃ kv ∈ KEYWORDS, lab = kv.1 := by
  unfold keywordLabel at h
  have main : ∀ (entries : List (String × List String))
      (acc : Option String),
      (entries.foldl
        (fun acc kv =>
          match acc with
          | some _ => acc
          | none => if kv.2.any (fun kw => kwSearch kw w) then some kv.1
                    else none)
        acc) = some lab →
      acc = some lab ∨ ∃ kv ∈ entries, lab = kv.1 := by
    intro entries
    induction entries with
    | nil => intro acc h2; exact Or.inl h2
    | cons kv kvs ih =>
      intro acc h2
      simp only [List.foldl] at h2
      rcases ih _ h2 with h3 | h3
      · cases acc with
        | some x => exact Or.inl h3
        | none =>
          simp only at h3
          by_cases h4 : kv.2.any (fun kw => kwSearch kw w) = true
          · rw [if_pos h4] at h3
            right
            exact ⟨kv, List.mem_cons_self kv kvs,
              (Option.some.inj h3).symm⟩
          · rw [if_neg h4] at h3
            exact Option.noConfusion h3
      · rcases h3 with ⟨kv2, hkv2, h5⟩
        exact Or.inr ⟨kv2, List.mem_cons_of_mem _ hkv2, h5⟩
  rcases main KEYWORDS none h with h2 | h2
  · exact Option.noConfusion h2
  · exact h2

/-- The shorthand stage only returns one of the seven labels. -/
theorem shorthandLabel_mem (text : List Char) (start : Nat) :
    shorthandLabel text start ∈ labels7 := by
  unfold shorthandLabel
  generalize String.mk (toLowerL (trimWs (sliceL text (start - 2) start))) = s
  by_cases h1 : (s = "c" || s = "m") = true
  · rw [if_pos h1]; decide
  · rw [if_neg h1]
    by_cases h2 : (s = "t" || s = "o" || s = "w") = true
    · rw [if_pos h2]; decide
    · rw [if_neg h2]
      by_cases h3 : (s = "h" || s = "r") = true
      · rw [if_pos h3]; decide
      · rw [if_neg h3]; decide

/-- `_label_for` only returns one of the seven labels. -/
theorem label_for_mem (text : List Char) (start endp : Nat) :
    label_for text start endp ∈ labels7 := by
  unfold label_for
  by_cases htf : (match acParse (sliceL text start endp) with
    | some code => TOLL_FREE_CODES.contains (String.mk code)
    | none => false) = true
  · rw [if_pos htf]; decide
  · rw [if_neg htf]
    cases hk : keywordLabel (toLowerL (sliceL text (start - 40) (endp + 15)))
      with
    | some lab =>
      have hall : ∀ kv ∈ KEYWORDS, kv.1 ∈ labels7 := by decide
      rcases keywordLabel_mem hk with ⟨kv, hkv, h2⟩
      show lab ∈ labels7
      rw [h2]
      exact hall kv hkv
    | none =>
      show shorthandLabel text start ∈ labels7
      exact shorthandLabel_mem text start

/-- `addTo` preserves any predicate on the keys. -/
theorem keys_sub_addTo {P : String → Prop}
    {bs : List (String × List String)} {k v : String}
    (h : ∀ q ∈ bs, P q.1) : ∀ q ∈ addTo bs k v, P q.1 := by
  intro q hq
  unfold addTo at hq
  rcases List.mem_map.mp hq with ⟨r, hr, hrq⟩
  by_cases h2 : r.1 = k
  · rw [if_pos h2] at hrq
    rw [← hrq]
    exact h r hr
  · rw [if_neg h2] at hrq
    rw [← hrq]
    exact h r hr

/-- A fold of key-preserving steps preserves a key predicate. -/
theorem keys_sub_foldl {α : Type} {P : String → Prop}
    (f : List (String × List String) → α → List (String × List String))
    (hf : ∀ bs a, (∀ q ∈ bs, P q.1) → ∀ q ∈ f bs a, P q.1) :
    ∀ (ms : List α) (bs : List (String × List String)),
      (∀ q ∈ bs, P q.1) → ∀ q ∈ ms.foldl f bs, P q.1 := by
  intro ms
  induction ms with
  | nil => intro bs h; exact h
  | cons m ms ih => intro bs h; exact ih _ (hf bs m h)

/-! ## C10: result shape by input type (src/phone_cleaner.py 122-148) -/

/-- Claim C10: for a non-string input, `extract_numbers` returns the fresh
mapping with all seven labels present, each with an empty collection; for
a string input, only non-empty buckets survive, each as a sorted list
keyed by one of the seven labels. -/
theorem c10_result_shape :
    (∀ area : String, extract_numbers .nonstr area =
      [("cell", []), ("home", []), ("work", []), ("office", []),
       ("fax", []), ("tollfree", []), ("other", [])]) ∧
    (∀ (s area : String) (p : String × List String),
      p ∈ extract_numbers (.str s) area →
      p.1 ∈ labels7 ∧ p.2 ≠ [] ∧
      List.Sorted (fun a b => strLe a b = true) p.2) := by
  constructor
  · intro area; rfl
  · intro s area p hp
    show p.1 ∈ labels7 ∧ _
    have hp2 : p ∈ extract_numbers_str s area := hp
    unfold extract_numbers_str at hp2
    obtain ⟨hmem, hkeep⟩ := List.mem_filter.mp hp2
    obtain ⟨q, hq, hpq⟩ := List.mem_map.mp hmem
    have hkeys : ∀ r ∈ (reScan s.toList).foldl
        (fun bs p2 =>
          addTo bs (label_for s.toList p2.1 (p2.1 + p2.2))
            (match parseFmt (clean_local (sliceL s.toList p2.1 (p2.1 + p2.2))
                area) with
             | some f => String.mk f
             | none => String.mk (sliceL s.toList p2.1 (p2.1 + p2.2))))
        ((matcherFinds s.toList).foldl
          (fun bs m =>
            addTo bs (label_for s.toList m.1 (m.1 + m.2.1))
              (String.mk m.2.2))
          emptyBuckets), r.1 ∈ labels7 := by
      apply @keys_sub_foldl (Nat × Nat) (fun x => x ∈ labels7) _
        (fun bs a h => keys_sub_addTo h)
      apply @keys_sub_foldl (Nat × Nat × List Char) (fun x => x ∈ labels7) _
        (fun bs a h => keys_sub_addTo h)
      intro q2 hq2
      rcases List.mem_map.mp hq2 with ⟨lab, hlab, hq3⟩
      rw [← hq3]
      exact hlab
    refine ⟨?_, ?_, ?_⟩
    · rw [← hpq]
      exact hkeys q hq
    · intro hnil
      rw [hnil] at hkeep
      exact Bool.noConfusion hkeep
    · rw [← hpq]
      exact List.sorted_insertionSort _ q.2

/-- Witness for the string arm of `c10_result_shape`. -/
theorem c10_witness :
    ("other", ["(204) 555-0199"]) ∈
      extract_numbers (.str "204-555-0199") "204" ∧
    (("other", ["(204) 555-0199"]) : String × List String).1 ∈ labels7 ∧
    (["(204) 555-0199"] : List String) ≠ [] ∧
    List.Sorted (fun a b => strLe a b = true) ["(204) 555-0199"] := by
  have h2 := c10_result_shape.2 "204-555-0199" "204"
    ("other", ["(204) 555-0199"]) (by decide)
  exact ⟨by decide, h2.1, h2.2.1, h2.2.2⟩

/-! ## C8: no phone-like candidate is lost (src/phone_cleaner.py 136-145) -/

/-- Every candidate of the fallback pass contributes its entry (formatted
or raw) to the bucket of its label.  Shared helper behind claims C8 and
C9. -/
theorem pass2_entry_mem (s area : String) (st len : Nat)
    (hmem : (st, len) ∈ reScan s.toList) :
    (match parseFmt (clean_local (sliceL s.toList st (st + len)) area) with
     | some f => String.mk f
     | none => String.mk (sliceL s.toList st (st + len)))
      ∈ bucketOf (extract_numbers (.str s) area)
          (label_for s.toList st (st + len)) := by
  show _ ∈ bucketOf (extract_numbers_str s area) _
  unfold extract_numbers_str
  apply mem_bucketOf_filter
  apply mem_bucketOf_map_sort
  obtain ⟨l1, l2, hsplit⟩ := List.append_of_mem hmem
  rw [hsplit, List.foldl_append, List.foldl_cons]
  apply mem_bucketOf_foldl _ (fun bs a h => mem_bucketOf_addTo _ h)
  show _ ∈ bucketOf (addTo _ (label_for s.toList st (st + len)) _) _
  apply mem_bucketOf_addTo_self
  apply exists_key_foldl _ (fun bs a h => exists_key_addTo h)
  apply exists_key_foldl _ (fun bs a h => exists_key_addTo h)
  exact exists_key_emptyBuckets (label_for_mem s.toList st (st + len))

/-- Claim C8: every candidate found by the permissive pattern contributes
an entry to its label's bucket in the final mapping: the nationally
formatted repaired number when parsing succeeds, the raw matched text when
parsing fails (`except NumberParseException: formatted = m.group()`).
Extraction is total (never raises) and no phone-like substring is
dropped. -/
theorem c8_no_candidate_lost (s area : String) (st len : Nat)
    (hmem : (st, len) ∈ reScan s.toList) :
    (match parseFmt (clean_local (sliceL s.toList st (st + len)) area) with
     | some f => String.mk f
     | none => String.mk (sliceL s.toList st (st + len)))
      ∈ bucketOf (extract_numbers (.str s) area)
          (label_for s.toList st (st + len)) :=
  pass2_entry_mem s area st len hmem

/-- Witness for `c8_no_candidate_lost`: the candidate `1 555-0199` has
eight digits, so no default area is injected; the cleaned `+15550199`
parses (country code `1`, seven-digit national number `5550199`), the
seven-digit US pattern formats it as `555-0199`, and that formatted entry
lands in the `other` bucket. -/
theorem c8_witness :
    (0, 10) ∈ reScan ("1 555-0199".toList) ∧
    parseFmt (clean_local (sliceL ("1 555-0199".toList) 0 10) "204")
      = some ['5', '5', '5', '-', '0', '1', '9', '9'] ∧
    (match parseFmt (clean_local (sliceL ("1 555-0199".toList) 0 10) "204")
       with
     | some f => String.mk f
     | none => String.mk (sliceL ("1 555-0199".toList) 0 10))
      ∈ bucketOf (extract_numbers (.str "1 555-0199") "204")
          (label_for ("1 555-0199".toList) 0 10) :=
  ⟨by decide, by decide,
   c8_no_candidate_lost "1 555-0199" "204" 0 10 (by decide)⟩

/-! ## Character-class facts for symbolic digits -/

/-- Numeric bounds of a digit character. -/
theorem digit_bounds {c : Char} (h : c.isDigit = true) :
    48 ≤ c.toNat ∧ c.toNat ≤ 57 := by
  simp only [Char.isDigit, Bool.and_eq_true, decide_eq_true_eq] at h
  obtain ⟨h1, h2⟩ := h
  exact ⟨h1, h2⟩

/-- A digit differs from every non-digit character. -/
theorem digit_ne {c : Char} (h : c.isDigit = true) (d : Char)
    (hd : d.isDigit = false) : c ≠ d := by
  intro he
  rw [he] at h
  rw [h] at hd
  exact Bool.noConfusion hd

/-- Digits are not whitespace. -/
theorem digit_not_ws {c : Char} (h : c.isDigit = true) : isWs c = false := by
  by_contra h2
  rw [Bool.not_eq_false] at h2
  simp only [isWs, Bool.or_eq_true, decide_eq_true_eq] at h2
  rcases h2 with ((((h2 | h2) | h2) | h2) | h2) | h2 <;> subst h2 <;>
    exact absurd h (by decide)

/-- Digits are not alphabetic. -/
theorem digit_not_alpha {c : Char} (h : c.isDigit = true) :
    c.isAlpha = false := by
  have hb := digit_bounds h
  by_contra h2
  rw [Bool.not_eq_false] at h2
  simp only [Char.isAlpha, Char.isUpper, Char.isLower, Bool.or_eq_true,
    Bool.and_eq_true, decide_eq_true_eq] at h2
  rcases h2 with ⟨hu1, hu2⟩ | ⟨hl1, hl2⟩
  · have a1 : 65 ≤ c.toNat := hu1
    have a2 : c.toNat ≤ 90 := hu2
    omega
  · have a1 : 97 ≤ c.toNat := hl1
    have a2 : c.toNat ≤ 122 := hl2
    omega

/-- Digits are alphanumeric. -/
theorem digit_alnum {c : Char} (h : c.isDigit = true) :
    c.isAlphanum = true := by
  simp [Char.isAlphanum, h]

/-- Digits are word characters. -/
theorem digit_isWordC {c : Char} (h : c.isDigit = true) :
    isWordC c = true := by
  simp [isWordC, digit_alnum h]

/-- Lowercasing a digit is the identity. -/
theorem digit_toLower {c : Char} (h : c.isDigit = true) :
    c.toLower = c := by
  have hb := digit_bounds h
  show (if c.toNat ≥ 65 ∧ c.toNat ≤ 90 then Char.ofNat (c.toNat + 32) else c)
    = c
  rw [if_neg (by omega)]

/-- A character at least `'2'` differs from `'1'`. -/
theorem ge_two_ne_one {c : Char} (h : '2' ≤ c) : c ≠ '1' := by
  intro he
  have h2 : (50 : Nat) ≤ c.toNat := h
  rw [he] at h2
  have h3 : ('1').toNat = 49 := rfl
  omega

/-! ## Keyword-stage absence lemmas -/

/-- Does the keyword literal start with a letter?  (Every entry of
`KEYWORDS` does.) -/
def kwHeadAlpha (kw : String) : Bool :=
  match kw.toList with
  | k0 :: _ => k0.isAlpha
  | [] => false

/-- A keyword starting with a letter never occurs in an all-non-letter
window. -/
theorem kwSearchGo_false {k0 : Char} {ks : List Char}
    (hk0 : k0.isAlpha = true) :
    ∀ (w : List Char), (∀ c ∈ w, c.isAlpha = false) → ∀ prev,
      kwSearchGo (k0 :: ks) prev w = false := by
  intro w
  induction w with
  | nil => intro _ _; rfl
  | cons c rest ih =>
    intro hall prev
    show (_ || kwSearchGo (k0 :: ks) (some c) rest) = false
    rw [ih (fun d hd => hall d (List.mem_cons_of_mem _ hd)) (some c)]
    rw [Bool.or_false]
    have hc : c.isAlpha = false := hall c (List.mem_cons_self c rest)
    have hne : (c :: rest).take (k0 :: ks).length ≠ k0 :: ks := by
      rw [List.length_cons, List.take_succ_cons]
      intro hEq
      have hck : c = k0 := by
        injection hEq
      rw [hck, hk0] at hc
      exact Bool.noConfusion hc
    rw [decide_eq_false hne]
    rfl

/-- `kwSearch` fails on an all-non-letter window for a letter-headed
keyword. -/
theorem kwSearch_false_of_nonalpha {kw : String}
    (hkw : kwHeadAlpha kw = true) {w : List Char}
    (hall : ∀ c ∈ w, c.isAlpha = false) : kwSearch kw w = false := by
  unfold kwSearch
  unfold kwHeadAlpha at hkw
  cases hl : kw.toList with
  | nil =>
    rw [hl] at hkw
    exact Bool.noConfusion hkw
  | cons k0 ks =>
    rw [hl] at hkw
    exact kwSearchGo_false hkw w hall none

/-- No keyword of a letter-headed list fires on an all-non-letter
window. -/
theorem any_kwSearch_false {kws : List String}
    (hh : ∀ kw ∈ kws, kwHeadAlpha kw = true) {w : List Char}
    (hall : ∀ c ∈ w, c.isAlpha = false) :
    (kws.any (fun kw => kwSearch kw w)) = false := by
  induction kws with
  | nil => rfl
  | cons kw kws ih =>
    rw [List.any_cons]
    rw [kwSearch_false_of_nonalpha (hh kw (List.mem_cons_self kw kws)) hall]
    rw [Bool.false_or]
    exact ih (fun k hk => hh k (List.mem_cons_of_mem _ hk))

/-- The keyword stage finds nothing in an all-non-letter window (every
`KEYWORDS` literal starts with a letter). -/
theorem keywordLabel_none_of_nonalpha {w : List Char}
    (hall : ∀ c ∈ w, c.isAlpha = false) : keywordLabel w = none := by
  have hk : ∀ kv ∈ KEYWORDS, ∀ kw ∈ kv.2, kwHeadAlpha kw = true := by decide
  unfold keywordLabel
  have main : ∀ entries : List (String × List String),
      (∀ kv ∈ entries, ∀ kw ∈ kv.2, kwHeadAlpha kw = true) →
      (entries.foldl
        (fun acc kv =>
          match acc with
          | some _ => acc
          | none => if kv.2.any (fun kw => kwSearch kw w) then some kv.1
                    else none)
        none) = none := by
    intro entries
    induction entries with
    | nil => intro _; rfl
    | cons kv kvs ih =>
      intro hE
      rw [List.foldl_cons]
      have h1 : (kv.2.any (fun kw => kwSearch kw w)) = false :=
        any_kwSearch_false (hE kv (List.mem_cons_self kv kvs)) hall
      show (kvs.foldl _ (if kv.2.any (fun kw => kwSearch kw w) then some kv.1
        else none)) = none
      rw [h1]
      show (kvs.foldl _ none) = none
      exact ih (fun kv2 hkv2 => hE kv2 (List.mem_cons_of_mem _ hkv2))
  exact main KEYWORDS hk

/-! ## Scanner-composition lemmas for `PHONE_RE.finditer` -/

/-- The scanner on an empty list finds nothing (any fuel). -/
theorem reScanGo_nil (fuel pos : Nat) : reScanGo fuel pos [] = [] := by
  cases fuel <;> rfl

/-- Two position shifts compose additively. -/
theorem map_shift_shift (l : List (Nat × Nat)) (m n : Nat) :
    (l.map (fun p => (p.1 + m, p.2))).map (fun p => (p.1 + n, p.2))
      = l.map (fun p => (p.1 + (m + n), p.2)) := by
  induction l with
  | nil => rfl
  | cons a t ih =>
    simp [List.map_cons, ih, Nat.add_assoc]

/-- The scanner's positions shift with its starting offset. -/
theorem reScanGo_shift (fuel : Nat) :
    ∀ (pos : Nat) (l : List Char),
      reScanGo fuel pos l
        = (reScanGo fuel 0 l).map (fun p => (p.1 + pos, p.2)) := by
  induction fuel with
  | zero => intro pos l; rfl
  | succ f ih =>
    intro pos l
    cases l with
    | nil => rfl
    | cons c rest =>
      show (match matchAt (c :: rest) with
        | some rem =>
          let len := (c :: rest).length - rem.length
          if len = 0 then reScanGo f (pos + 1) rest
          else (pos, len) :: reScanGo f (pos + len) ((c :: rest).drop len)
        | none => reScanGo f (pos + 1) rest)
        = ((match matchAt (c :: rest) with
          | some rem =>
            let len := (c :: rest).length - rem.length
            if len = 0 then reScanGo f (0 + 1) rest
            else (0, len) :: reScanGo f (0 + len) ((c :: rest).drop len)
          | none => reScanGo f (0 + 1) rest) : List (Nat × Nat)).map
            (fun p => (p.1 + pos, p.2))
      cases hm : matchAt (c :: rest) with
      | none =>
        show reScanGo f (pos + 1) rest
          = (reScanGo f (0 + 1) rest).map (fun p => (p.1 + pos, p.2))
        rw [ih (pos + 1) rest, ih (0 + 1) rest, map_shift_shift]
        have : 0 + 1 + pos = pos + 1 := by omega
        rw [this]
      | some rem =>
        by_cases hlen : (c :: rest).length - rem.length = 0
        · show (if (c :: rest).length - rem.length = 0 then _ else _) = _
          rw [if_pos hlen]
          show reScanGo f (pos + 1) rest
            = (if (c :: rest).length - rem.length = 0 then
                reScanGo f (0 + 1) rest
              else _).map (fun p => (p.1 + pos, p.2))
          rw [if_pos hlen]
          rw [ih (pos + 1) rest, ih (0 + 1) rest, map_shift_shift]
          have : 0 + 1 + pos = pos + 1 := by omega
          rw [this]
        · show (if (c :: rest).length - rem.length = 0 then _ else _) = _
          rw [if_neg hlen]
          show ((pos, (c :: rest).length - rem.length) ::
              reScanGo f (pos + ((c :: rest).length - rem.length))
                ((c :: rest).drop ((c :: rest).length - rem.length)))
            = (if (c :: rest).length - rem.length = 0 then
                reScanGo f (0 + 1) rest
              else (0, (c :: rest).length - rem.length) ::
                reScanGo f (0 + ((c :: rest).length - rem.length))
                  ((c :: rest).drop ((c :: rest).length - rem.length))).map
                (fun p => (p.1 + pos, p.2))
          rw [if_neg hlen]
          rw [List.map_cons]
          rw [ih (pos + ((c :: rest).length - rem.length)) _,
            ih (0 + ((c :: rest).length - rem.length)) _, map_shift_shift]
          have h1 : (0 : Nat) + pos = pos := by omega
          have h2 : 0 + ((c :: rest).length - rem.length) + pos
              = pos + ((c :: rest).length - rem.length) := by omega
          rw [h1, h2]

/-- A position where the pattern cannot match contributes a shifted scan
of the remainder. -/
theorem reScan_cons_none {c : Char} {rest : List Char}
    (h : matchAt (c :: rest) = none) :
    reScan (c :: rest) = (reScan rest).map (fun p => (p.1 + 1, p.2)) := by
  unfold reScan
  rw [List.length_cons]
  show (match matchAt (c :: rest) with
    | some rem =>
      let len := (c :: rest).length - rem.length
      if len = 0 then reScanGo rest.length (0 + 1) rest
      else (0, len) :: reScanGo rest.length (0 + len) ((c :: rest).drop len)
    | none => reScanGo rest.length (0 + 1) rest)
    = (reScanGo rest.length 0 rest).map (fun p => (p.1 + 1, p.2))
  rw [h]
  show reScanGo rest.length (0 + 1) rest
    = (reScanGo rest.length 0 rest).map (fun p => (p.1 + 1, p.2))
  rw [reScanGo_shift rest.length (0 + 1) rest]

/-- A head match that consumes the whole input is the single find. -/
theorem reScan_match_all {l : List Char} (hne : l ≠ [])
    (hm : matchAt l = some []) : reScan l = [(0, l.length)] := by
  cases l with
  | nil => exact absurd rfl hne
  | cons c rest =>
    unfold reScan
    rw [List.length_cons]
    show (match matchAt (c :: rest) with
      | some rem =>
        let len := (c :: rest).length - rem.length
        if len = 0 then reScanGo rest.length (0 + 1) rest
        else (0, len) :: reScanGo rest.length (0 + len) ((c :: rest).drop len)
      | none => reScanGo rest.length (0 + 1) rest)
      = [(0, (c :: rest).length)]
    rw [hm]
    show (if (c :: rest).length - ([] : List Char).length = 0 then _
      else (0, (c :: rest).length - ([] : List Char).length) ::
        reScanGo rest.length (0 + ((c :: rest).length - ([] : List Char).length))
          ((c :: rest).drop ((c :: rest).length - ([] : List Char).length)))
      = [(0, (c :: rest).length)]
    have h2 : (c :: rest).length - ([] : List Char).length
        = (c :: rest).length := by
      rw [List.length_nil]
      omega
    rw [h2, if_neg (by rw [List.length_cons]; omega)]
    rw [List.drop_length, reScanGo_nil]

/-! ## Symbolic evaluation of the pattern on dash-separated numbers -/

/-- `PHONE_RE` consumes a whole 7-digit `ddd-dddd` candidate. -/
theorem matchAt_34 (a b c d e f g : Char) (ha : a.isDigit = true)
    (hb : b.isDigit = true) (hc : c.isDigit = true) (hd : d.isDigit = true)
    (he : e.isDigit = true) (hf : f.isDigit = true) (hg : g.isDigit = true) :
    matchAt [a, b, c, '-', d, e, f, g] = some [] := by
  by_cases h1 : a = '1'
  · subst h1
    simp [matchAt, countryTry, areaTry, localPart, take3d, take4d, optSepWs,
      firstSome, List.dropWhile_cons,
      hb, hc, hd, he, hf, hg,
      digit_ne hb '-' (by decide), digit_ne hb '.' (by decide),
      digit_ne hb '(' (by decide),
      digit_ne hd '-' (by decide), digit_ne hd '.' (by decide),
      digit_ne hg '-' (by decide), digit_ne hg '.' (by decide),
      digit_not_ws hb, digit_not_ws hd, digit_not_ws hg]
  · simp [matchAt, countryTry, areaTry, localPart, take3d, take4d, optSepWs,
      firstSome, List.dropWhile_cons, h1,
      ha, hb, hc, hd, he, hf, hg,
      digit_ne ha '+' (by decide), digit_ne ha '(' (by decide),
      digit_ne hd '-' (by decide), digit_ne hd '.' (by decide),
      digit_ne hg '-' (by decide), digit_ne hg '.' (by decide),
      digit_not_ws hd, digit_not_ws hg]

/-- `PHONE_RE` consumes a whole 10-digit `ddd-ddd-dddd` candidate whose
first digit is not `1`. -/
theorem matchAt_334 (x1 x2 x3 y1 y2 y3 z1 z2 z3 z4 : Char)
    (hx1 : x1.isDigit = true) (hx2 : x2.isDigit = true)
    (hx3 : x3.isDigit = true) (hy1 : y1.isDigit = true)
    (hy2 : y2.isDigit = true) (hy3 : y3.isDigit = true)
    (hz1 : z1.isDigit = true) (hz2 : z2.isDigit = true)
    (hz3 : z3.isDigit = true) (hz4 : z4.isDigit = true)
    (hone : x1 ≠ '1') :
    matchAt [x1, x2, x3, '-', y1, y2, y3, '-', z1, z2, z3, z4]
      = some [] := by
  simp [matchAt, countryTry, areaTry, localPart, take3d, take4d, optSepWs,
    firstSome, List.dropWhile_cons, hone,
    hx1, hx2, hx3, hy1, hy2, hy3, hz1, hz2, hz3, hz4,
    digit_ne hx1 '+' (by decide), digit_ne hx1 '(' (by decide),
    digit_ne hy1 '-' (by decide), digit_ne hy1 '.' (by decide),
    digit_ne hz1 '-' (by decide), digit_ne hz1 '.' (by decide),
    digit_not_ws hy1, digit_not_ws hz1]

/-- `\d{3}` fails whenever the head is not a digit (whatever follows). -/
theorem take3d_nondigit_head (c : Char) (rest : List Char)
    (h : c.isDigit = false) : take3d (c :: rest) = none := by
  cases rest with
  | nil => rfl
  | cons b r2 =>
    cases r2 with
    | nil => rfl
    | cons c2 r3 => simp [take3d, h]

/-- `PHONE_RE` cannot match at a head character that is not a digit and
not `+`, `1` or `(`. -/
theorem matchAt_fail_head (c : Char) (rest : List Char)
    (h1 : c ≠ '+') (h2 : c ≠ '1') (h3 : c ≠ '(')
    (h4 : c.isDigit = false) : matchAt (c :: rest) = none := by
  simp [matchAt, countryTry, areaTry, localPart, firstSome,
    h1, h2, h3, take3d_nondigit_head c rest h4]

/-- The leading-area-code regex on a `ddd-…` span groups the first three
digits (backtracking past the optional `1`). -/
theorem acParse_dash (x1 x2 x3 : Char) (rest : List Char)
    (hx1 : x1.isDigit = true) (hx2 : x2.isDigit = true)
    (hx3 : x3.isDigit = true) :
    acParse (x1 :: x2 :: x3 :: '-' :: rest) = some [x1, x2, x3] := by
  by_cases h1 : x1 = '1'
  · subst h1
    simp [acParse, acParse.three, List.dropWhile_cons,
      hx2, hx3]
  · simp [acParse, acParse.three, List.dropWhile_cons, h1,
      hx1, hx2, hx3]

/-! ## Label and entry evaluation on dash-separated numbers -/

/-- The label of a bare `ddd-dddd` candidate whose first three digits are
not toll-free is `other`: the area-code group grabs the exchange, no
keyword can occur among digits and dashes, and there is no preceding
shorthand. -/
theorem label_for_34 (a b c d e f g : Char) (ha : a.isDigit = true)
    (hb : b.isDigit = true) (hc : c.isDigit = true) (hd : d.isDigit = true)
    (he : e.isDigit = true) (hf : f.isDigit = true) (hg : g.isDigit = true)
    (htf : TOLL_FREE_CODES.contains (String.mk [a, b, c]) = false) :
    label_for [a, b, c, '-', d, e, f, g] 0 8 = "other" := by
  have hall : ∀ x ∈ toLowerL (sliceL [a, b, c, '-', d, e, f, g] (0 - 40)
      (8 + 15)), x.isAlpha = false := by
    have hwin : toLowerL (sliceL [a, b, c, '-', d, e, f, g] (0 - 40) (8 + 15))
        = [a, b, c, '-', d, e, f, g] := by
      show toLowerL [a, b, c, '-', d, e, f, g] = _
      simp [toLowerL, digit_toLower ha, digit_toLower hb, digit_toLower hc,
        digit_toLower hd, digit_toLower he, digit_toLower hf,
        digit_toLower hg]
    rw [hwin]
    intro x hx
    simp only [List.mem_cons, List.not_mem_nil, or_false] at hx
    rcases hx with rfl | rfl | rfl | rfl | rfl | rfl | rfl | rfl
    · exact digit_not_alpha ha
    · exact digit_not_alpha hb
    · exact digit_not_alpha hc
    · decide
    · exact digit_not_alpha hd
    · exact digit_not_alpha he
    · exact digit_not_alpha hf
    · exact digit_not_alpha hg
  show (if (match acParse (a :: b :: c :: '-' :: [d, e, f, g]) with
      | some code => TOLL_FREE_CODES.contains (String.mk code)
      | none => false) = true then "tollfree"
    else
      match keywordLabel (toLowerL (sliceL [a, b, c, '-', d, e, f, g]
          (0 - 40) (8 + 15))) with
      | some label => label
      | none => shorthandLabel [a, b, c, '-', d, e, f, g] 0) = "other"
  rw [acParse_dash a b c [d, e, f, g] ha hb hc]
  show (if TOLL_FREE_CODES.contains (String.mk [a, b, c]) = true
    then "tollfree"
    else
      match keywordLabel (toLowerL (sliceL [a, b, c, '-', d, e, f, g]
          (0 - 40) (8 + 15))) with
      | some label => label
      | none => shorthandLabel [a, b, c, '-', d, e, f, g] 0) = "other"
  rw [htf]
  rw [if_neg (fun hcon => Bool.noConfusion hcon)]
  rw [keywordLabel_none_of_nonalpha hall]
  rfl

/-- The label of a `ddd-ddd-dddd` candidate whose area code is not
toll-free (and not starting with 1) is `other`. -/
theorem label_for_334 (x1 x2 x3 y1 y2 y3 z1 z2 z3 z4 : Char)
    (hx1 : x1.isDigit = true) (hx2 : x2.isDigit = true)
    (hx3 : x3.isDigit = true) (hy1 : y1.isDigit = true)
    (hy2 : y2.isDigit = true) (hy3 : y3.isDigit = true)
    (hz1 : z1.isDigit = true) (hz2 : z2.isDigit = true)
    (hz3 : z3.isDigit = true) (hz4 : z4.isDigit = true)
    (htf : TOLL_FREE_CODES.contains (String.mk [x1, x2, x3]) = false) :
    label_for [x1, x2, x3, '-', y1, y2, y3, '-', z1, z2, z3, z4] 0 12
      = "other" := by
  have hall : ∀ x ∈ toLowerL (sliceL
      [x1, x2, x3, '-', y1, y2, y3, '-', z1, z2, z3, z4] (0 - 40) (12 + 15)),
      x.isAlpha = false := by
    have hwin : toLowerL (sliceL
        [x1, x2, x3, '-', y1, y2, y3, '-', z1, z2, z3, z4] (0 - 40) (12 + 15))
        = [x1, x2, x3, '-', y1, y2, y3, '-', z1, z2, z3, z4] := by
      show toLowerL [x1, x2, x3, '-', y1, y2, y3, '-', z1, z2, z3, z4] = _
      simp [toLowerL, digit_toLower hx1, digit_toLower hx2,
        digit_toLower hx3, digit_toLower hy1, digit_toLower hy2,
        digit_toLower hy3, digit_toLower hz1, digit_toLower hz2,
        digit_toLower hz3, digit_toLower hz4]
    rw [hwin]
    intro x hx
    simp only [List.mem_cons, List.not_mem_nil, or_false] at hx
    rcases hx with rfl | rfl | rfl | rfl | rfl | rfl | rfl | rfl | rfl |
      rfl | rfl | rfl
    · exact digit_not_alpha hx1
    · exact digit_not_alpha hx2
    · exact digit_not_alpha hx3
    · decide
    · exact digit_not_alpha hy1
    · exact digit_not_alpha hy2
    · exact digit_not_alpha hy3
    · decide
    · exact digit_not_alpha hz1
    · exact digit_not_alpha hz2
    · exact digit_not_alpha hz3
    · exact digit_not_alpha hz4
  show (if (match acParse (x1 :: x2 :: x3 :: '-' ::
        [y1, y2, y3, '-', z1, z2, z3, z4]) with
      | some code => TOLL_FREE_CODES.contains (String.mk code)
      | none => false) = true then "tollfree"
    else
      match keywordLabel (toLowerL (sliceL
          [x1, x2, x3, '-', y1, y2, y3, '-', z1, z2, z3, z4]
          (0 - 40) (12 + 15))) with
      | some label => label
      | none => shorthandLabel
          [x1, x2, x3, '-', y1, y2, y3, '-', z1, z2, z3, z4] 0) = "other"
  rw [acParse_dash x1 x2 x3 [y1, y2, y3, '-', z1, z2, z3, z4] hx1 hx2 hx3]
  show (if TOLL_FREE_CODES.contains (String.mk [x1, x2, x3]) = true
    then "tollfree"
    else
      match keywordLabel (toLowerL (sliceL
          [x1, x2, x3, '-', y1, y2, y3, '-', z1, z2, z3, z4]
          (0 - 40) (12 + 15))) with
      | some label => label
      | none => shorthandLabel
          [x1, x2, x3, '-', y1, y2, y3, '-', z1, z2, z3, z4] 0) = "other"
  rw [htf]
  rw [if_neg (fun hcon => Bool.noConfusion hcon)]
  rw [keywordLabel_none_of_nonalpha hall]
  rfl

/-- The repaired 7-digit candidate formats as `(204) abc-defg`. -/
theorem entry_34 (a b c d e f g : Char) (ha : a.isDigit = true)
    (hb : b.isDigit = true) (hc : c.isDigit = true) (hd : d.isDigit = true)
    (he : e.isDigit = true) (hf : f.isDigit = true) (hg : g.isDigit = true) :
    parseFmt (clean_local [a, b, c, '-', d, e, f, g] "204")
      = some ['(', '2', '0', '4', ')', ' ', a, b, c, '-', d, e, f, g] := by
  have hfil : [a, b, c, '-', d, e, f, g].filter Char.isDigit
      = [a, b, c, d, e, f, g] := by
    simp [List.filter, ha, hb, hc, hd, he, hf, hg]
  unfold clean_local
  rw [hfil]
  simp [parseFmt, usFormatNsn, fmtNational, ha, hb, hc, hd, he, hf, hg]

/-- The repaired 10-digit candidate formats as `(x1x2x3) y1y2y3-z1z2z3z4`. -/
theorem entry_334 (x1 x2 x3 y1 y2 y3 z1 z2 z3 z4 : Char)
    (hx1 : x1.isDigit = true) (hx2 : x2.isDigit = true)
    (hx3 : x3.isDigit = true) (hy1 : y1.isDigit = true)
    (hy2 : y2.isDigit = true) (hy3 : y3.isDigit = true)
    (hz1 : z1.isDigit = true) (hz2 : z2.isDigit = true)
    (hz3 : z3.isDigit = true) (hz4 : z4.isDigit = true) :
    parseFmt (clean_local [x1, x2, x3, '-', y1, y2, y3, '-', z1, z2, z3, z4]
        "204")
      = some ['(', x1, x2, x3, ')', ' ', y1, y2, y3, '-', z1, z2, z3, z4] := by
  have hfil : [x1, x2, x3, '-', y1, y2, y3, '-', z1, z2, z3, z4].filter
      Char.isDigit = [x1, x2, x3, y1, y2, y3, z1, z2, z3, z4] := by
    simp [List.filter, hx1, hx2, hx3, hy1, hy2, hy3, hz1, hz2, hz3, hz4]
  unfold clean_local
  rw [hfil]
  simp [parseFmt, usFormatNsn, fmtNational, hx1, hx2, hx3, hy1, hy2, hy3,
    hz1, hz2, hz3, hz4]

/-- The matcher model finds nothing in a bare 7-digit candidate (seven
digits are not a complete NANP number). -/
theorem matcherFinds_34 (a b c d e f g : Char) (ha : a.isDigit = true)
    (hb : b.isDigit = true) (hc : c.isDigit = true) (hd : d.isDigit = true)
    (he : e.isDigit = true) (hf : f.isDigit = true) (hg : g.isDigit = true) :
    matcherFinds [a, b, c, '-', d, e, f, g] = [] := by
  have hfil : [a, b, c, '-', d, e, f, g].filter Char.isDigit
      = [a, b, c, d, e, f, g] := by
    simp [List.filter, ha, hb, hc, hd, he, hf, hg]
  have h2 : (sliceL [a, b, c, '-', d, e, f, g] 0 (0 + 8)).filter
      Char.isDigit = [a, b, c, d, e, f, g] := by
    rw [show sliceL [a, b, c, '-', d, e, f, g] 0 (0 + 8)
      = [a, b, c, '-', d, e, f, g] from rfl]
    exact hfil
  unfold matcherFinds
  rw [reScan_match_all (by simp) (matchAt_34 a b c d e f g ha hb hc hd he
    hf hg)]
  simp only [List.filterMap_cons, List.filterMap_nil, List.length_cons,
    List.length_nil]
  rw [h2]
  rfl

/-- Re-inserting an already-inserted value changes nothing. -/
theorem addTo_idem (k v : String) :
    ∀ bs : List (String × List String), addTo (addTo bs k v) k v
      = addTo bs k v := by
  intro bs
  induction bs with
  | nil => rfl
  | cons p ps ih =>
    rw [addTo_cons, addTo_cons, ih]
    by_cases hp : p.1 = k
    · have hins : (if p.2.contains v then p.2 else p.2 ++ [v]).contains v
          = true := by
        by_cases hc : p.2.contains v
        · rw [if_pos hc]; exact hc
        · rw [if_neg hc]
          exact List.elem_eq_true_of_mem
            (List.mem_append_right _ (List.mem_singleton.mpr rfl))
      simp [hp, hins]
      by_cases hv : v ∈ p.2
      · rw [if_pos hv]; exact hv
      · rw [if_neg hv]
        exact List.mem_append_right _ (List.mem_singleton.mpr rfl)
    · simp [hp]

/-! ## Per-bucket deduplication -/

/-- A fold of pair-predicate-preserving steps preserves the predicate. -/
theorem pairs_sub_foldl {α : Type} {P : (String × List String) → Prop}
    (f : List (String × List String) → α → List (String × List String))
    (hf : ∀ bs a, (∀ q ∈ bs, P q) → ∀ q ∈ f bs a, P q) :
    ∀ (ms : List α) (bs : List (String × List String)),
      (∀ q ∈ bs, P q) → ∀ q ∈ ms.foldl f bs, P q := by
  intro ms
  induction ms with
  | nil => intro bs h; exact h
  | cons m ms ih => intro bs h; exact ih _ (hf bs m h)

/-- `addTo` preserves duplicate-freedom of every bucket (it inserts only
when the value is absent). -/
theorem nodup_addTo {bs : List (String × List String)} {k v : String}
    (h : ∀ q ∈ bs, q.2.Nodup) : ∀ q ∈ addTo bs k v, q.2.Nodup := by
  intro q hq
  unfold addTo at hq
  rcases List.mem_map.mp hq with ⟨r, hr, hrq⟩
  by_cases h2 : r.1 = k
  · rw [if_pos h2] at hrq
    rw [← hrq]
    show (if r.2.contains v then r.2 else r.2 ++ [v]).Nodup
    by_cases hc : r.2.contains v
    · rw [if_pos hc]
      exact h r hr
    · rw [if_neg hc]
      rw [List.nodup_append]
      refine ⟨h r hr, List.nodup_singleton v, ?_⟩
      intro x hx hx2
      rw [List.mem_singleton.mp hx2] at hx
      exact hc (List.elem_eq_true_of_mem hx)
  · rw [if_neg h2] at hrq
    rw [← hrq]
    exact h r hr

/-- The bucket of any key is duplicate-free when every bucket is. -/
theorem bucketOf_nodup {bs : List (String × List String)} {k : String}
    (h : ∀ q ∈ bs, q.2.Nodup) : (bucketOf bs k).Nodup := by
  unfold bucketOf
  cases hf : bs.find? (fun p => p.1 = k) with
  | none => exact List.nodup_nil
  | some p => exact h p (List.mem_of_find?_eq_some hf)

/-- Every bucket of an `extract_numbers` result is duplicate-free:
values are collected as sets and only sorted at the end. -/
theorem nodup_buckets (s area k : String) :
    (bucketOf (extract_numbers (.str s) area) k).Nodup := by
  apply bucketOf_nodup
  intro q hq
  have hq2 : q ∈ extract_numbers_str s area := hq
  unfold extract_numbers_str at hq2
  obtain ⟨hmem, -⟩ := List.mem_filter.mp hq2
  obtain ⟨r, hr, hrq⟩ := List.mem_map.mp hmem
  have hb2 : ∀ x ∈ (reScan s.toList).foldl
      (fun bs p2 =>
        addTo bs (label_for s.toList p2.1 (p2.1 + p2.2))
          (match parseFmt (clean_local (sliceL s.toList p2.1 (p2.1 + p2.2))
              area) with
           | some f => String.mk f
           | none => String.mk (sliceL s.toList p2.1 (p2.1 + p2.2))))
      ((matcherFinds s.toList).foldl
        (fun bs m =>
          addTo bs (label_for s.toList m.1 (m.1 + m.2.1))
            (String.mk m.2.2))
        emptyBuckets), x.2.Nodup := by
    apply @pairs_sub_foldl (Nat × Nat) (fun x => x.2.Nodup) _
      (fun bs a h => nodup_addTo h)
    apply @pairs_sub_foldl (Nat × Nat × List Char) (fun x => x.2.Nodup) _
      (fun bs a h => nodup_addTo h)
    intro x hx
    rcases List.mem_map.mp hx with ⟨lab, -, hx2⟩
    rw [← hx2]
    exact List.nodup_nil
  rw [← hrq]
  show (sortBucket r.2).Nodup
  exact (List.perm_insertionSort _ r.2).nodup_iff.mpr (hb2 r hr)

/-! ## C9: `Cell` keyword classification (src/phone_cleaner.py 117-148) -/

/-- The label of the `Cell: abc-def-ghij` span: area code not toll-free,
keyword `cell` found in the window. -/
theorem label_for_cell (a b c d e f g h i j : Char)
    (ha : a.isDigit = true) (hb : b.isDigit = true) (hc : c.isDigit = true)
    (hd : d.isDigit = true) (he : e.isDigit = true) (hf : f.isDigit = true)
    (hg : g.isDigit = true) (hh : h.isDigit = true) (hi : i.isDigit = true)
    (hj : j.isDigit = true)
    (htf : TOLL_FREE_CODES.contains (String.mk [a, b, c]) = false) :
    label_for ['C', 'e', 'l', 'l', ':', ' ', a, b, c, '-', d, e, f, '-',
      g, h, i, j] 6 18 = "cell" := by
  have hwin : toLowerL (sliceL ['C', 'e', 'l', 'l', ':', ' ', a, b, c, '-',
      d, e, f, '-', g, h, i, j] (6 - 40) (18 + 15))
      = ['c', 'e', 'l', 'l', ':', ' ', a, b, c, '-', d, e, f, '-',
         g, h, i, j] := by
    show toLowerL ['C', 'e', 'l', 'l', ':', ' ', a, b, c, '-', d, e, f, '-',
      g, h, i, j] = _
    simp [toLowerL, digit_toLower ha, digit_toLower hb, digit_toLower hc,
      digit_toLower hd, digit_toLower he, digit_toLower hf,
      digit_toLower hg, digit_toLower hh, digit_toLower hi,
      digit_toLower hj]
  have hkw : keywordLabel ['c', 'e', 'l', 'l', ':', ' ', a, b, c, '-',
      d, e, f, '-', g, h, i, j] = some "cell" := rfl
  show (if (match acParse (a :: b :: c :: '-' :: [d, e, f, '-', g, h, i, j])
      with
      | some code => TOLL_FREE_CODES.contains (String.mk code)
      | none => false) = true then "tollfree"
    else
      match keywordLabel (toLowerL (sliceL
          ['C', 'e', 'l', 'l', ':', ' ', a, b, c, '-', d, e, f, '-',
           g, h, i, j] (6 - 40) (18 + 15))) with
      | some label => label
      | none => shorthandLabel ['C', 'e', 'l', 'l', ':', ' ', a, b, c, '-',
          d, e, f, '-', g, h, i, j] 6) = "cell"
  rw [acParse_dash a b c [d, e, f, '-', g, h, i, j] ha hb hc]
  show (if TOLL_FREE_CODES.contains (String.mk [a, b, c]) = true
    then "tollfree"
    else
      match keywordLabel (toLowerL (sliceL
          ['C', 'e', 'l', 'l', ':', ' ', a, b, c, '-', d, e, f, '-',
           g, h, i, j] (6 - 40) (18 + 15))) with
      | some label => label
      | none => shorthandLabel ['C', 'e', 'l', 'l', ':', ' ', a, b, c, '-',
          d, e, f, '-', g, h, i, j] 6) = "cell"
  rw [htf]
  rw [if_neg (fun hcon => Bool.noConfusion hcon)]
  rw [hwin, hkw]

/-- Claim C9 (amended): for every well-formed 10-digit dashed number whose
area code starts with 2-9 and is not toll-free, the input
`Cell: abc-def-ghij` puts the nationally formatted `(abc) def-ghij` in the
`cell` bucket; and numbers within every bucket of every result are
deduplicated (after formatting). -/
theorem c9_cell_keyword_amended (a b c d e f g h i j : Char)
    (ha : a.isDigit = true) (hb : b.isDigit = true) (hc : c.isDigit = true)
    (hd : d.isDigit = true) (he : e.isDigit = true) (hf : f.isDigit = true)
    (hg : g.isDigit = true) (hh : h.isDigit = true) (hi : i.isDigit = true)
    (hj : j.isDigit = true)
    (ha2 : '2' ≤ a)
    (htf : TOLL_FREE_CODES.contains (String.mk [a, b, c]) = false) :
    String.mk ['(', a, b, c, ')', ' ', d, e, f, '-', g, h, i, j]
      ∈ bucketOf (extract_numbers (.str (String.mk
          ['C', 'e', 'l', 'l', ':', ' ', a, b, c, '-', d, e, f, '-',
           g, h, i, j])) "204") "cell" ∧
    (∀ s area k : String,
      (bucketOf (extract_numbers (.str s) area) k).Nodup) := by
  refine ⟨?_, fun s area k => nodup_buckets s area k⟩
  have ha1 : a ≠ '1' := ge_two_ne_one ha2
  have hm : matchAt [a, b, c, '-', d, e, f, '-', g, h, i, j] = some [] :=
    matchAt_334 a b c d e f g h i j ha hb hc hd he hf hg hh hi hj ha1
  have hscan : reScan ['C', 'e', 'l', 'l', ':', ' ', a, b, c, '-',
      d, e, f, '-', g, h, i, j] = [(6, 12)] := by
    rw [reScan_cons_none (matchAt_fail_head 'C' _ (by decide) (by decide)
      (by decide) (by decide))]
    rw [reScan_cons_none (matchAt_fail_head 'e' _ (by decide) (by decide)
      (by decide) (by decide))]
    rw [reScan_cons_none (matchAt_fail_head 'l' _ (by decide) (by decide)
      (by decide) (by decide))]
    rw [reScan_cons_none (matchAt_fail_head 'l' _ (by decide) (by decide)
      (by decide) (by decide))]
    rw [reScan_cons_none (matchAt_fail_head ':' _ (by decide) (by decide)
      (by decide) (by decide))]
    rw [reScan_cons_none (matchAt_fail_head ' ' _ (by decide) (by decide)
      (by decide) (by decide))]
    rw [reScan_match_all (by simp) hm]
    rfl
  have hmem612 : ((6 : Nat), (12 : Nat)) ∈ reScan (String.mk
      ['C', 'e', 'l', 'l', ':', ' ', a, b, c, '-', d, e, f, '-',
       g, h, i, j]).toList := by
    rw [toList_mk, hscan]
    exact List.mem_singleton.mpr rfl
  have hmain := pass2_entry_mem (String.mk
    ['C', 'e', 'l', 'l', ':', ' ', a, b, c, '-', d, e, f, '-',
     g, h, i, j]) "204" 6 12 hmem612
  rw [toList_mk] at hmain
  have hpf : parseFmt (clean_local (sliceL
      ['C', 'e', 'l', 'l', ':', ' ', a, b, c, '-', d, e, f, '-',
       g, h, i, j] 6 (6 + 12)) "204")
      = some ['(', a, b, c, ')', ' ', d, e, f, '-', g, h, i, j] := by
    rw [show sliceL ['C', 'e', 'l', 'l', ':', ' ', a, b, c, '-', d, e, f,
      '-', g, h, i, j] 6 (6 + 12) = [a, b, c, '-', d, e, f, '-', g, h, i, j]
      from rfl]
    exact entry_334 a b c d e f g h i j ha hb hc hd he hf hg hh hi hj
  rw [hpf] at hmain
  have hlab : label_for ['C', 'e', 'l', 'l', ':', ' ', a, b, c, '-',
      d, e, f, '-', g, h, i, j] 6 (6 + 12) = "cell" := by
    rw [show (6 + 12 : Nat) = 18 from rfl]
    exact label_for_cell a b c d e f g h i j ha hb hc hd he hf hg hh hi hj
      htf
  rw [hlab] at hmain
  exact hmain

/-- Witness for C9: at `Cell: 204-555-0199` the cell bucket holds
`(204) 555-0199`. -/
theorem c9_witness :
    String.mk ['(', '2', '0', '4', ')', ' ', '5', '5', '5', '-', '0', '1',
      '9', '9']
      ∈ bucketOf (extract_numbers (.str (String.mk
          ['C', 'e', 'l', 'l', ':', ' ', '2', '0', '4', '-', '5', '5', '5',
           '-', '0', '1', '9', '9'])) "204") "cell" :=
  (c9_cell_keyword_amended '2' '0' '4' '5' '5' '5' '0' '1' '9' '9'
    (by decide) (by decide) (by decide) (by decide) (by decide) (by decide)
    (by decide) (by decide) (by decide) (by decide) (by decide)
    (by decide)).1

/-- Counterexample for C9 as stated: with a toll-free area code the toll-free
check overrides the `Cell:` keyword, so the cell bucket stays empty. -/
theorem c9_counterexample :
    bucketOf (extract_numbers (.str "Cell: 855-555-0199") "204") "cell" = []
    ∧ bucketOf (extract_numbers (.str "Cell: 855-555-0199") "204")
        "tollfree" = ["(855) 555-0199"] := by
  decide

/-! ## C7: 7-digit repair vs full 10-digit input
(src/phone_cleaner.py 74-84, 117-148) -/

/-- The matcher model on a full `ddd-ddd-dddd` candidate not starting with
`1`: one find when the ten digits are NANP-valid, none otherwise. -/
theorem matcherFinds_334 (x1 x2 x3 y1 y2 y3 z1 z2 z3 z4 : Char)
    (hx1 : x1.isDigit = true) (hx2 : x2.isDigit = true)
    (hx3 : x3.isDigit = true) (hy1 : y1.isDigit = true)
    (hy2 : y2.isDigit = true) (hy3 : y3.isDigit = true)
    (hz1 : z1.isDigit = true) (hz2 : z2.isDigit = true)
    (hz3 : z3.isDigit = true) (hz4 : z4.isDigit = true)
    (hone : x1 ≠ '1') :
    matcherFinds [x1, x2, x3, '-', y1, y2, y3, '-', z1, z2, z3, z4]
      = if validNANP [x1, x2, x3, y1, y2, y3, z1, z2, z3, z4] = true
        then [(0, 12, fmtNational [x1, x2, x3, y1, y2, y3, z1, z2, z3, z4])]
        else [] := by
  have hfil : (sliceL [x1, x2, x3, '-', y1, y2, y3, '-', z1, z2, z3, z4]
      0 (0 + 12)).filter Char.isDigit
      = [x1, x2, x3, y1, y2, y3, z1, z2, z3, z4] := by
    rw [show sliceL [x1, x2, x3, '-', y1, y2, y3, '-', z1, z2, z3, z4]
      0 (0 + 12) = [x1, x2, x3, '-', y1, y2, y3, '-', z1, z2, z3, z4]
      from rfl]
    simp [List.filter, hx1, hx2, hx3, hy1, hy2, hy3, hz1, hz2, hz3, hz4]
  unfold matcherFinds
  rw [reScan_match_all (by simp) (matchAt_334 x1 x2 x3 y1 y2 y3 z1 z2 z3 z4
    hx1 hx2 hx3 hy1 hy2 hy3 hz1 hz2 hz3 hz4 hone)]
  rw [show ([x1, x2, x3, '-', y1, y2, y3, '-', z1, z2, z3, z4] :
    List Char).length = 12 from rfl]
  simp only [List.filterMap_cons, List.filterMap_nil]
  rw [hfil]
  rw [show nsnOf [x1, x2, x3, y1, y2, y3, z1, z2, z3, z4]
    = some [x1, x2, x3, y1, y2, y3, z1, z2, z3, z4] from rfl]
  by_cases hv : validNANP [x1, x2, x3, y1, y2, y3, z1, z2, z3, z4] = true
  · simp [hv]
  · simp [hv]

/-- Claim C7 (amended): for a 7-digit dashed candidate whose exchange is
not a toll-free code, the input `abc-defg` with default area `204` yields
exactly the same bucket mapping as the full 10-digit `204-abc-defg`. -/
theorem c7_local_vs_full_amended (a b c d e f g : Char)
    (ha : a.isDigit = true) (hb : b.isDigit = true) (hc : c.isDigit = true)
    (hd : d.isDigit = true) (he : e.isDigit = true) (hf : f.isDigit = true)
    (hg : g.isDigit = true)
    (htf : TOLL_FREE_CODES.contains (String.mk [a, b, c]) = false) :
    extract_numbers (.str (String.mk [a, b, c, '-', d, e, f, g])) "204"
      = extract_numbers (.str (String.mk
          ['2', '0', '4', '-', a, b, c, '-', d, e, f, g])) "204" := by
  have hL : extract_numbers (.str (String.mk [a, b, c, '-', d, e, f, g]))
      "204"
      = ((addTo emptyBuckets "other" (String.mk
          ['(', '2', '0', '4', ')', ' ', a, b, c, '-', d, e, f, g])).map
          (fun p => (p.1, sortBucket p.2))).filter (fun p => !p.2.isEmpty)
      := by
    show ((((reScan [a, b, c, '-', d, e, f, g]).foldl
        (fun bs p =>
          addTo bs (label_for [a, b, c, '-', d, e, f, g] p.1 (p.1 + p.2))
            (match parseFmt (clean_local
                (sliceL [a, b, c, '-', d, e, f, g] p.1 (p.1 + p.2)) "204")
              with
             | some f2 => String.mk f2
             | none => String.mk (sliceL [a, b, c, '-', d, e, f, g] p.1
                 (p.1 + p.2))))
        ((matcherFinds [a, b, c, '-', d, e, f, g]).foldl
          (fun bs m =>
            addTo bs (label_for [a, b, c, '-', d, e, f, g] m.1 (m.1 + m.2.1))
              (String.mk m.2.2))
          emptyBuckets)).map
        (fun p => (p.1, sortBucket p.2))).filter (fun p => !p.2.isEmpty)) = _
    rw [matcherFinds_34 a b c d e f g ha hb hc hd he hf hg]
    rw [reScan_match_all (by simp)
      (matchAt_34 a b c d e f g ha hb hc hd he hf hg)]
    rw [show ([a, b, c, '-', d, e, f, g] : List Char).length = 8 from rfl]
    simp only [List.foldl_cons, List.foldl_nil]
    rw [show ((0 : Nat) + 8) = 8 from rfl]
    rw [show sliceL [a, b, c, '-', d, e, f, g] 0 8
      = [a, b, c, '-', d, e, f, g] from rfl]
    rw [label_for_34 a b c d e f g ha hb hc hd he hf hg htf]
    rw [entry_34 a b c d e f g ha hb hc hd he hf hg]
  have hlab10 : label_for ['2', '0', '4', '-', a, b, c, '-', d, e, f, g]
      0 12 = "other" :=
    label_for_334 '2' '0' '4' a b c d e f g (by decide) (by decide)
      (by decide) ha hb hc hd he hf hg (by decide)
  have hR : extract_numbers (.str (String.mk
      ['2', '0', '4', '-', a, b, c, '-', d, e, f, g])) "204"
      = ((addTo emptyBuckets "other" (String.mk
          ['(', '2', '0', '4', ')', ' ', a, b, c, '-', d, e, f, g])).map
          (fun p => (p.1, sortBucket p.2))).filter (fun p => !p.2.isEmpty)
      := by
    show ((((reScan ['2', '0', '4', '-', a, b, c, '-', d, e, f, g]).foldl
        (fun bs p =>
          addTo bs (label_for ['2', '0', '4', '-', a, b, c, '-', d, e, f, g]
              p.1 (p.1 + p.2))
            (match parseFmt (clean_local
                (sliceL ['2', '0', '4', '-', a, b, c, '-', d, e, f, g]
                  p.1 (p.1 + p.2)) "204")
              with
             | some f2 => String.mk f2
             | none => String.mk (sliceL
                 ['2', '0', '4', '-', a, b, c, '-', d, e, f, g] p.1
                 (p.1 + p.2))))
        ((matcherFinds ['2', '0', '4', '-', a, b, c, '-', d, e, f, g]).foldl
          (fun bs m =>
            addTo bs (label_for
                ['2', '0', '4', '-', a, b, c, '-', d, e, f, g] m.1
                (m.1 + m.2.1))
              (String.mk m.2.2))
          emptyBuckets)).map
        (fun p => (p.1, sortBucket p.2))).filter (fun p => !p.2.isEmpty)) = _
    rw [matcherFinds_334 '2' '0' '4' a b c d e f g (by decide) (by decide)
      (by decide) ha hb hc hd he hf hg (by decide)]
    rw [reScan_match_all (by simp) (matchAt_334 '2' '0' '4' a b c d e f g
      (by decide) (by decide) (by decide) ha hb hc hd he hf hg (by decide))]
    rw [show (['2', '0', '4', '-', a, b, c, '-', d, e, f, g] :
      List Char).length = 12 from rfl]
    by_cases hv : validNANP ['2', '0', '4', a, b, c, d, e, f, g] = true
    · rw [if_pos hv]
      simp only [List.foldl_cons, List.foldl_nil]
      rw [show ((0 : Nat) + 12) = 12 from rfl]
      rw [hlab10]
      rw [show sliceL ['2', '0', '4', '-', a, b, c, '-', d, e, f, g] 0 12
        = ['2', '0', '4', '-', a, b, c, '-', d, e, f, g] from rfl]
      rw [entry_334 '2' '0' '4' a b c d e f g (by decide) (by decide)
        (by decide) ha hb hc hd he hf hg]
      exact congrArg
        (fun bs => (bs.map (fun p => (p.1, sortBucket p.2))).filter
          (fun p => !p.2.isEmpty))
        (addTo_idem "other" (String.mk
          ['(', '2', '0', '4', ')', ' ', a, b, c, '-', d, e, f, g])
          emptyBuckets)
    · rw [if_neg hv]
      simp only [List.foldl_cons, List.foldl_nil]
      rw [show ((0 : Nat) + 12) = 12 from rfl]
      rw [hlab10]
      rw [show sliceL ['2', '0', '4', '-', a, b, c, '-', d, e, f, g] 0 12
        = ['2', '0', '4', '-', a, b, c, '-', d, e, f, g] from rfl]
      rw [entry_334 '2' '0' '4' a b c d e f g (by decide) (by decide)
        (by decide) ha hb hc hd he hf hg]
  rw [hL, hR]

/-- Witness for `c7_local_vs_full_amended` at `555-0199`. -/
theorem c7_witness :
    extract_numbers (.str (String.mk
        ['5', '5', '5', '-', '0', '1', '9', '9'])) "204"
      = extract_numbers (.str (String.mk
          ['2', '0', '4', '-', '5', '5', '5', '-', '0', '1', '9', '9']))
          "204" :=
  c7_local_vs_full_amended '5' '5' '5' '0' '1' '9' '9'
    (by decide) (by decide) (by decide) (by decide) (by decide) (by decide)
    (by decide) (by decide)

/-- Counterexample for C7 as stated: a 7-digit candidate whose exchange is
a toll-free code is labeled `tollfree` (the area-code regex grabs the
exchange), while the full 10-digit input is labeled by its real area
code. -/
theorem c7_counterexample :
    extract_numbers (.str "855-0199") "204"
      = [("tollfree", ["(204) 855-0199"])] ∧
    extract_numbers (.str "204-855-0199") "204"
      = [("other", ["(204) 855-0199"])] := by
  decide

/-! ## C6: the pipeline on normalized letter-and-space text
(src/add_NAISC.py 141-189) -/

/-- A map that fixes every element of a list fixes the list. -/
theorem map_id_of {α : Type} (f : α → α) (l : List α)
    (h : ∀ c ∈ l, f c = c) : l.map f = l := by
  induction l with
  | nil => rfl
  | cons c r ih =>
    rw [List.map_cons, h c (List.mem_cons_self c r),
      ih (fun x hx => h x (List.mem_cons_of_mem c hx))]

/-- Numeric bounds of a letter. -/
theorem alpha_bounds {c : Char} (h : c.isAlpha = true) :
    (65 ≤ c.toNat ∧ c.toNat ≤ 90) ∨ (97 ≤ c.toNat ∧ c.toNat ≤ 122) := by
  simp only [Char.isAlpha, Char.isUpper, Char.isLower, Bool.or_eq_true,
    Bool.and_eq_true, decide_eq_true_eq] at h
  rcases h with ⟨h1, h2⟩ | ⟨h1, h2⟩
  · exact Or.inl ⟨h1, h2⟩
  · exact Or.inr ⟨h1, h2⟩

/-- A letter differs from every non-letter. -/
theorem alpha_ne {c : Char} (h : c.isAlpha = true) (d : Char)
    (hd : d.isAlpha = false) : c ≠ d := by
  intro he
  rw [he] at h
  rw [h] at hd
  exact Bool.noConfusion hd

/-- Letters are not digits. -/
theorem alpha_not_digit {c : Char} (h : c.isAlpha = true) :
    c.isDigit = false := by
  have hb := alpha_bounds h
  by_contra h2
  rw [Bool.not_eq_false] at h2
  have hd := digit_bounds h2
  rcases hb with ⟨a1, a2⟩ | ⟨a1, a2⟩ <;> omega

/-- Letters are ASCII in this embedding. -/
theorem alpha_ascii {c : Char} (h : c.isAlpha = true) : c.toNat < 128 := by
  rcases alpha_bounds h with ⟨a1, a2⟩ | ⟨a1, a2⟩ <;> omega

/-- Case split on a true disjunction of Booleans. -/
theorem or_true_cases {a b : Bool} (h : (a || b) = true) :
    a = true ∨ b = true := by
  cases a
  · cases b
    · exact absurd h (by decide)
    · exact Or.inr rfl
  · exact Or.inl rfl

/-- A letter-or-space character differs from every character that is
neither a letter nor the space. -/
theorem ls_ne {c : Char} (h : (c.isAlpha || c = ' ') = true) (d : Char)
    (hd : d.isAlpha = false) (hd2 : d ≠ ' ') : c ≠ d := by
  rcases or_true_cases h with h1 | h1
  · exact alpha_ne h1 d hd
  · rw [of_decide_eq_true h1]
    exact fun he => hd2 he.symm

/-- Letter-or-space characters are ASCII. -/
theorem ls_ascii {c : Char} (h : (c.isAlpha || c = ' ') = true) :
    c.toNat < 128 := by
  rcases or_true_cases h with h1 | h1
  · exact alpha_ascii h1
  · rw [of_decide_eq_true h1]
    decide

/-- Letter-or-space characters are not digits. -/
theorem ls_not_digit {c : Char} (h : (c.isAlpha || c = ' ') = true) :
    c.isDigit = false := by
  rcases or_true_cases h with h1 | h1
  · exact alpha_not_digit h1
  · rw [of_decide_eq_true h1]
    decide

/-- Letter-or-space characters are not line breaks. -/
theorem ls_not_breaks {c : Char} (h : (c.isAlpha || c = ' ') = true) :
    (c = '\r' || c = '\n') = false := by
  simp [ls_ne h '\r' (by decide) (by decide),
    ls_ne h '\n' (by decide) (by decide)]

/-- Letter-or-space characters are not step-5a punctuation. -/
theorem ls_not_punct {c : Char} (h : (c.isAlpha || c = ' ') = true) :
    (c = ',' || c = ':' || c = ';' || c = '(' || c = ')' || c = '['
      || c = ']') = false := by
  simp [ls_ne h ',' (by decide) (by decide),
    ls_ne h ':' (by decide) (by decide),
    ls_ne h ';' (by decide) (by decide),
    ls_ne h '(' (by decide) (by decide),
    ls_ne h ')' (by decide) (by decide),
    ls_ne h '[' (by decide) (by decide),
    ls_ne h ']' (by decide) (by decide)]

/-- Letter-or-space characters are not `.` or `/`. -/
theorem ls_not_ds {c : Char} (h : (c.isAlpha || c = ' ') = true) :
    isDS c = false := by
  simp [isDS, ls_ne h '.' (by decide) (by decide),
    ls_ne h '/' (by decide) (by decide)]

/-- The head of a non-empty `dropWhile` result fails the predicate. -/
theorem dropWhile_head_false {α : Type} (p : α → Bool) (l : List α) :
    ∀ {c : α} {r : List α}, l.dropWhile p = c :: r → p c = false := by
  induction l with
  | nil =>
    intro c r hrest
    exact absurd hrest (by simp)
  | cons a as ih =>
    intro c r hrest
    rw [List.dropWhile_cons] at hrest
    by_cases hp : p a = true
    · rw [if_pos hp] at hrest
      exact ih hrest
    · rw [if_neg hp] at hrest
      injection hrest with h1 h2
      rw [Bool.not_eq_true] at hp
      rw [← h1]
      exact hp

/-- Members of a `dropWhile` result are members of the list. -/
theorem mem_of_dropWhile {α : Type} (p : α → Bool) (l : List α) {x : α}
    (hx : x ∈ l.dropWhile p) : x ∈ l := by
  induction l with
  | nil => simp at hx
  | cons a as ih =>
    rw [List.dropWhile_cons] at hx
    by_cases hp : p a = true
    · rw [if_pos hp] at hx
      exact List.mem_cons_of_mem a (ih hx)
    · rw [if_neg hp] at hx
      exact hx

/-- Step 1 is the identity on ASCII characters. -/
theorem asciiFoldC_ascii {c : Char} (h : c.toNat < 128) :
    asciiFoldC c = [c] := by
  unfold asciiFoldC
  rw [if_pos h]

/-- Step 1 is the identity on ASCII text. -/
theorem asciiFoldL_id (l : List Char) (h : ∀ c ∈ l, c.toNat < 128) :
    asciiFoldL l = l := by
  induction l with
  | nil => rfl
  | cons c r ih =>
    show asciiFoldC c ++ asciiFoldL r = c :: r
    rw [asciiFoldC_ascii (h c (List.mem_cons_self c r)),
      ih (fun x hx => h x (List.mem_cons_of_mem c hx))]
    rfl

/-- Step 2 is the identity on letter-and-space text. -/
theorem killBreaks_id (l : List Char)
    (h : ∀ c ∈ l, (c.isAlpha || c = ' ') = true) : killBreaks l = l :=
  map_id_of _ l (fun c hc => by simp [ls_not_breaks (h c hc)])

/-- Step 3 is the identity on letter-and-space text. -/
theorem commentCut_id (l : List Char)
    (h : ∀ c ∈ l, (c.isAlpha || c = ' ') = true) : commentCut l = l := by
  induction l with
  | nil => rfl
  | cons c rest ih =>
    have hc := h c (List.mem_cons_self c rest)
    rw [show commentCut (c :: rest) = c :: commentCut rest from by
      simp [commentCut, ls_ne hc '#' (by decide) (by decide),
        ls_ne hc '/' (by decide) (by decide)]]
    rw [ih (fun x hx => h x (List.mem_cons_of_mem c hx))]

/-- Step 4a is the identity on letter-and-space text (no digits). -/
theorem leadCodeStrip_id (l : List Char)
    (h : ∀ c ∈ l, (c.isAlpha || c = ' ') = true) : leadCodeStrip l = l := by
  have hds : (l.dropWhile (fun c => isWs c || c = '-')).takeWhile
      Char.isDigit = [] := by
    cases hrest : l.dropWhile (fun c => isWs c || c = '-') with
    | nil => rfl
    | cons c r =>
      have hcmem : c ∈ l := mem_of_dropWhile _ l
        (by rw [hrest]; exact List.mem_cons_self c r)
      have hcp := dropWhile_head_false _ l hrest
      have hcalpha : c.isAlpha = true := by
        rcases or_true_cases (h c hcmem) with h1 | h1
        · exact h1
        · rw [of_decide_eq_true h1] at hcp
          exact absurd hcp (by decide)
      rw [List.takeWhile_cons, alpha_not_digit hcalpha]
      simp
  simp only [leadCodeStrip]
  rw [hds]
  simp

/-- The step-4b scanner is the identity on digit-free text. -/
theorem saGo_nodigit (l : List Char) (h : ∀ c ∈ l, c.isDigit = false) :
    ∀ b, saGo b [] l = l := by
  induction l with
  | nil =>
    intro b
    cases b <;> rfl
  | cons c rest ih =>
    intro b
    have hc := h c (List.mem_cons_self c rest)
    rw [show saGo b [] (c :: rest) = c :: saGo (!isWordC c) [] rest from by
      simp [saGo, hc]]
    rw [ih (fun x hx => h x (List.mem_cons_of_mem c hx)) (!isWordC c)]

/-- Step 4b is the identity on letter-and-space text. -/
theorem standaloneCodes_id (l : List Char)
    (h : ∀ c ∈ l, (c.isAlpha || c = ' ') = true) : standaloneCodes l = l :=
  saGo_nodigit l (fun c hc => ls_not_digit (h c hc)) true

/-- Step 5a is the identity on letter-and-space text. -/
theorem killPunct_id (l : List Char)
    (h : ∀ c ∈ l, (c.isAlpha || c = ' ') = true) : killPunct l = l :=
  map_id_of _ l (fun c hc => by simp [ls_not_punct (h c hc)])

/-- The step-5b scanner is the identity on `.`- and `/`-free text. -/
theorem sdGo_noDS (l : List Char) (h : ∀ c ∈ l, isDS c = false) :
    sdGo 0 ' ' l = l := by
  induction l with
  | nil => rfl
  | cons c rest ih =>
    have hc := h c (List.mem_cons_self c rest)
    rw [show sdGo 0 ' ' (c :: rest) = c :: sdGo 0 ' ' rest from by
      simp [sdGo, hc, dsFlush]]
    rw [ih (fun x hx => h x (List.mem_cons_of_mem c hx))]

/-- Step 5b is the identity on letter-and-space text. -/
theorem squashDS_id (l : List Char)
    (h : ∀ c ∈ l, (c.isAlpha || c = ' ') = true) : squashDS l = l :=
  sdGo_noDS l (fun c hc => ls_not_ds (h c hc))

/-- The step-5c scanner is the identity on dash-free text. -/
theorem dashGo_nodash (l : List Char) (h : ∀ c ∈ l, c ≠ '-') :
    dashGo false l = l := by
  induction l with
  | nil => rfl
  | cons c rest ih =>
    have hc := h c (List.mem_cons_self c rest)
    rw [show dashGo false (c :: rest) = c :: dashGo false rest from by
      simp [dashGo, hc]]
    rw [ih (fun x hx => h x (List.mem_cons_of_mem c hx))]

/-- Step 5c is the identity on letter-and-space text. -/
theorem squashDash_id (l : List Char)
    (h : ∀ c ∈ l, (c.isAlpha || c = ' ') = true) : squashDash l = l :=
  dashGo_nodash l (fun c hc => ls_ne (h c hc) '-' (by decide) (by decide))

/-- Stripping `.- ` leaves something whenever the head is none of them. -/
theorem stripDMl_cons_ne_nil {c : Char} {r : List Char}
    (hc : isDotDashSpace c = false) : stripDMl (c :: r) ≠ [] := by
  unfold stripDMl
  intro hcon
  rw [List.reverse_eq_nil_iff] at hcon
  have h1 : (c :: r).dropWhile isDotDashSpace = c :: r := by
    rw [List.dropWhile_cons, hc]
    simp
  rw [h1] at hcon
  have h2 := List.dropWhile_eq_nil_iff.mp hcon c
    (List.mem_reverse.mpr (List.mem_cons_self c r))
  rw [hc] at h2
  exact Bool.noConfusion h2

/-- Trimming cannot be the identity on text with a whitespace head. -/
theorem trimWs_fix_head {c : Char} {r : List Char}
    (h : trimWs (c :: r) = c :: r) : isWs c = false := by
  by_contra h2
  rw [Bool.not_eq_false] at h2
  have h3 : (trimWs (c :: r)).length ≤ ((c :: r).dropWhile isWs).length := by
    unfold trimWs
    rw [List.length_reverse]
    calc (((c :: r).dropWhile isWs).reverse.dropWhile isWs).length
        ≤ ((c :: r).dropWhile isWs).reverse.length := dropWhile_len_le _ _
      _ = ((c :: r).dropWhile isWs).length := List.length_reverse _
  rw [h, List.dropWhile_cons, if_pos h2] at h3
  have h4 := dropWhile_len_le isWs r
  rw [List.length_cons] at h3
  omega

/-- The full `clean_text` body fixes non-empty letter-and-space text that
is already whitespace-normalized, substitution-fixed and title-cased. -/
theorem clean_fix_core (t : List Char)
    (hne : t ≠ [])
    (hall : ∀ c ∈ t, (c.isAlpha || c = ' ') = true)
    (hcw : collapseWs t = t) (htr : trimWs t = t)
    (hsub : substAll t = t)
    (htc : titleCaseL (toLowerL t) = t) :
    clean_text_str (String.mk t) = String.mk t := by
  have hcore : cleanCore (String.mk t) = t := by
    unfold cleanCore
    rw [toList_mk]
    rw [asciiFoldL_id t (fun c hc => ls_ascii (hall c hc))]
    rw [killBreaks_id t hall]
    rw [commentCut_id t hall]
    rw [leadCodeStrip_id t hall]
    rw [standaloneCodes_id t hall]
    rw [killPunct_id t hall]
    rw [squashDS_id t hall]
    rw [squashDash_id t hall]
    rw [hsub, hcw, htr]
    exact htc
  obtain ⟨c, r, rfl⟩ : ∃ c r, t = c :: r := by
    cases t with
    | nil => exact absurd rfl hne
    | cons c r => exact ⟨c, r, rfl⟩
  have hc := hall c (List.mem_cons_self c r)
  have hcns : isWs c = false := trimWs_fix_head htr
  have hcalpha : c.isAlpha = true := by
    rcases or_true_cases hc with h1 | h1
    · exact h1
    · rw [of_decide_eq_true h1] at hcns
      exact absurd hcns (by decide)
  have hdds : isDotDashSpace c = false := by
    simp [isDotDashSpace, alpha_ne hcalpha '.' (by decide),
      alpha_ne hcalpha '-' (by decide), alpha_ne hcalpha ' ' (by decide)]
  unfold clean_text_str
  rw [hcore]
  have htrs : trimS (String.mk (c :: r)) = String.mk (c :: r) := by
    unfold trimS
    rw [toList_mk, htr]
  rw [htrs]
  rw [if_neg (fun hcon => List.noConfusion (congrArg String.data hcon))]
  rw [if_neg (stripDMl_cons_ne_nil hdds)]

/-- Claim C6 (amended): the normalizer is idempotent on every input whose
normal form is non-empty letter-and-space text with collapsed whitespace,
no edge whitespace, fixed by the substitution table and by title-casing
after lowercasing; full idempotence fails (see the counterexample). -/
theorem c6_idempotent_amended (x : String)
    (hne : (clean_text_str x).toList ≠ [])
    (hall : ∀ c ∈ (clean_text_str x).toList, (c.isAlpha || c = ' ') = true)
    (hcw : collapseWs (clean_text_str x).toList = (clean_text_str x).toList)
    (htr : trimWs (clean_text_str x).toList = (clean_text_str x).toList)
    (hsub : substAll (clean_text_str x).toList = (clean_text_str x).toList)
    (htc : titleCaseL (toLowerL (clean_text_str x).toList)
      = (clean_text_str x).toList) :
    clean_text_str (clean_text_str x) = clean_text_str x := by
  have h := clean_fix_core (clean_text_str x).toList hne hall hcw htr hsub
    htc
  exact h

/-- Witness for `c6_idempotent_amended` at `hello world` (normal form
`Hello World`). -/
theorem c6_witness :
    clean_text_str "hello world" = "Hello World" ∧
    clean_text_str (clean_text_str "hello world")
      = clean_text_str "hello world" :=
  ⟨by decide,
   c6_idempotent_amended "hello world" (by decide) (by decide) (by decide)
     (by decide) (by decide) (by decide)⟩

/-- Counterexample for C6 as stated: `hello..12` normalizes to `Hello/12`,
whose `/1` suffix the comment-stripping step of a second run removes. -/
theorem c6_counterexample :
    clean_text_str (clean_text_str "hello..12")
      ≠ clean_text_str "hello..12" := by
  decide

end QuickStuff
